import Mathlib

/-!
Verification of the retrieval core of `pokeprof-notebook`
(`src/pokeprof_notebook/{types,indexer,router,retriever}.py`) against its
natural-language specification.

Python strings are modelled as `List Char` (ASCII fragment); Python floats
as `ℚ` (all score arithmetic in the code is on small decimal constants);
Python dicts as association lists (insertion order, unique keys);
raised exceptions as `Except`/`Option` results.  External collaborators
(the tiktoken tokenizer, the LLM ranking oracle) are parameters of the
definitions that call them, mirroring their role as swappable services.
-/

namespace PokeProf

/-- Python strings, modelled as lists of characters (ASCII fragment). -/
abbrev Str := List Char

/-- `str.lower()` (ASCII). -/
def lc (s : Str) : Str := s.map Char.toLower

/-- Python `str.isspace` for a single character (ASCII whitespace). -/
def pyIsSpace (c : Char) : Bool :=
  c = ' ' || c = '\t' || c = '\n' || c = '\r' || c = '\x0b' || c = '\x0c'

/-- Python `str.isalnum` for a single character (ASCII fragment). -/
def pyIsAlnum (c : Char) : Bool := c.isAlphanum

/-- Python `str.isdigit` for a single character (ASCII fragment). -/
def pyIsDigit (c : Char) : Bool := c.isDigit

/-- Python `s.strip()`: drop leading and trailing whitespace. -/
def pyStrip (s : Str) : Str :=
  ((s.dropWhile pyIsSpace).reverse.dropWhile pyIsSpace).reverse

/-- Worker for `pySplitWs`: `acc` is the current word, reversed. -/
def pySplitWsGo : Str → Str → List Str
  | [], acc => if acc.isEmpty then [] else [acc.reverse]
  | c :: rest, acc =>
    if pyIsSpace c then
      if acc.isEmpty then pySplitWsGo rest [] else acc.reverse :: pySplitWsGo rest []
    else pySplitWsGo rest (c :: acc)

/-- Python `s.split()` (no argument): split on runs of whitespace, no empties. -/
def pySplitWs (s : Str) : List Str := pySplitWsGo s []

/-- Python `sub in s` substring containment. -/
def pyIn (sub s : Str) : Bool := decide (sub <:+: s)

/-- Worker for `pySplitOn`: `acc` is the current chunk, reversed. -/
def pySplitOnGo (sep : Char) : Str → Str → List Str
  | [], acc => [acc.reverse]
  | c :: rest, acc =>
    if c = sep then acc.reverse :: pySplitOnGo sep rest [] else pySplitOnGo sep rest (c :: acc)

/-- Python `s.split(sep)` for a one-character separator, keeping empties. -/
def pySplitOn (sep : Char) (s : Str) : List Str := pySplitOnGo sep s []

/-- Association-list read, mirroring Python `dict.get` (unique keys). -/
def assocGet (m : List (Str × α)) (k : Str) : Option α :=
  (m.find? (fun p => p.1 = k)).map Prod.snd

/-- Association-list read with default, mirroring Python `dict.get(k, d)`. -/
def assocGetD (m : List (Str × α)) (k : Str) (d : α) : α :=
  (assocGet m k).getD d

/-- Association-list write, mirroring Python `dict[k] = v` (replaces in place,
appends new keys at the end, as dict insertion order does). -/
def assocPut (m : List (Str × α)) (k : Str) (v : α) : List (Str × α) :=
  if m.any (fun p => p.1 = k) then
    m.map (fun p => if p.1 = k then (k, v) else p)
  else m ++ [(k, v)]

/-! ## Data model (`types.py`) -/
/-- `DocumentType` — closed enumeration of the five source-document kinds. -/
inductive DocumentType where
  | rulebook
  | penalty_guidelines
  | legal_card_list
  | rulings_compendium
  | card_database
deriving DecidableEq, Repr

/-- `DocumentType.value` — the Python enum's string value. -/
def DocumentType.value : DocumentType → Str
  | .rulebook => "rulebook".data
  | .penalty_guidelines => "penalty_guidelines".data
  | .legal_card_list => "legal_card_list".data
  | .rulings_compendium => "rulings_compendium".data
  | .card_database => "card_database".data

/-- `DocumentType(s)` — the Python enum constructor; `none` models the
`ValueError` raised on an unknown value. -/
def DocumentType.ofValue (s : Str) : Option DocumentType :=
  if s = "rulebook".data then some .rulebook
  else if s = "penalty_guidelines".data then some .penalty_guidelines
  else if s = "legal_card_list".data then some .legal_card_list
  else if s = "rulings_compendium".data then some .rulings_compendium
  else if s = "card_database".data then some .card_database
  else none

/-- `NodeMetadata` — section-level annotations of a tree node. -/
structure NodeMetadata where
  document_type : DocumentType
  section_number : Str := []
  title : Str := []
deriving DecidableEq, Repr

/-- `TreeNode` — a node in a hierarchical document index. -/
inductive TreeNode where
  | mk (id : Str) (content : Str) (metadata : NodeMetadata)
      (children : List TreeNode) (token_count : Nat)

def TreeNode.id : TreeNode → Str
  | .mk i _ _ _ _ => i

def TreeNode.content : TreeNode → Str
  | .mk _ c _ _ _ => c

def TreeNode.metadata : TreeNode → NodeMetadata
  | .mk _ _ m _ _ => m

def TreeNode.children : TreeNode → List TreeNode
  | .mk _ _ _ ch _ => ch

def TreeNode.token_count : TreeNode → Nat
  | .mk _ _ _ _ t => t

mutual

/-- `TreeNode.walk` — all nodes in depth-first pre-order, the node included. -/
def TreeNode.walk : TreeNode → List TreeNode
  | .mk i c m ch t => .mk i c m ch t :: TreeNode.walkAll ch

/-- Concatenation of `walk` over a list of nodes (the `extend` loop). -/
def TreeNode.walkAll : List TreeNode → List TreeNode
  | [] => []
  | n :: ns => TreeNode.walk n ++ TreeNode.walkAll ns

end

/-- `DocumentIndex` — the persisted unit: a complete indexed document. -/
structure DocumentIndex where
  document_name : Str
  document_type : DocumentType
  root : TreeNode
  total_tokens : Nat := 0
  source_hash : Str := []

/-- `RetrievedSection` — a section retrieved by the retriever, scored. -/
structure RetrievedSection where
  node : TreeNode
  score : ℚ
  document_name : Str
  errata_context : List Str := []

/-- `RouteDecision` — router output. The free-text `reasoning` trace is
presentational (float formatting) and is left empty in the model. -/
structure RouteDecision where
  documents : List Str
  persona : Str
  confidence : ℚ
  reasoning : Str := []
  card_names : List Str := []
deriving DecidableEq, Repr

/-- `DomainConfig` — domain name plus `routing_hints` mapping document
names to keyword lists (a Python dict: ordered, unique keys). -/
structure DomainConfig where
  domain_name : Str
  routing_hints : List (Str × List Str)
deriving DecidableEq, Repr

/-! ## Persistence (`indexer.py`: `save_tree` / `load_tree`)

`save_tree` serializes through nested Python dicts which `json.dump`
writes out; `load_tree` parses the JSON back into the same dict shape and
rebuilds the tree.  The dict/JSON shape is modelled by `JNode`/`JIndex`;
the `json.dump`/`json.loads` text layer is the standard library's and is
not re-modelled. -/
/-- The dict produced by `_node_to_dict` for one node. -/
inductive JNode where
  | mk (id : Str) (content : Str) (document_type : Str) (section_number : Str)
      (title : Str) (token_count : Nat) (children : List JNode)

mutual

/-- `_node_to_dict` in `save_tree`. -/
def nodeToDict : TreeNode → JNode
  | .mk i c m ch t =>
    .mk i c m.document_type.value m.section_number m.title t (nodeToDictAll ch)

def nodeToDictAll : List TreeNode → List JNode
  | [] => []
  | n :: ns => nodeToDict n :: nodeToDictAll ns

end

mutual

/-- `_dict_to_node` in `load_tree`; `none` models the exception raised on
an unknown `document_type` value. -/
def dictToNode : JNode → Option TreeNode
  | .mk i c dt sn ti t ch =>
    match DocumentType.ofValue dt, dictToNodeAll ch with
    | some dtv, some children => some (.mk i c ⟨dtv, sn, ti⟩ children t)
    | _, _ => none

def dictToNodeAll : List JNode → Option (List TreeNode)
  | [] => some []
  | n :: ns =>
    match dictToNode n, dictToNodeAll ns with
    | some hd, some tl => some (hd :: tl)
    | _, _ => none

end

/-- The top-level dict written by `save_tree`. -/
structure JIndex where
  document_name : Str
  document_type : Str
  total_tokens : Nat
  source_hash : Str
  root : JNode

/-- `save_tree`, at the dict level (the atomic file write is I/O). -/
def save_tree (index : DocumentIndex) : JIndex :=
  { document_name := index.document_name
    document_type := index.document_type.value
    total_tokens := index.total_tokens
    source_hash := index.source_hash
    root := nodeToDict index.root }

/-- `load_tree`, at the dict level; `none` models the raised errors. -/
def load_tree (data : JIndex) : Option DocumentIndex :=
  match dictToNode data.root, DocumentType.ofValue data.document_type with
  | some root, some dt =>
    some { document_name := data.document_name
           document_type := dt
           root := root
           total_tokens := data.total_tokens
           source_hash := data.source_hash }
  | _, _ => none

/-! ## Indexer (`indexer.py`: `index_document`)

`index_document` reads the markdown file, splits it on newlines and runs a
stack-based heading parser.  The tiktoken tokenizer `_count_tokens` is an
external library and is passed in as the parameter `countTokens`. -/
/-- `[a-z]` of `_SECTION_NUM_RE`, which is compiled without
`re.IGNORECASE`: lowercase letters only. -/
def isSectionLetter (c : Char) : Bool :=
  'a' ≤ c && c ≤ 'z'

/-- `[a-z]` of `_CROSS_REF_RE`, which is compiled with `re.IGNORECASE`:
either case matches. -/
def isSectionLetterCI (c : Char) : Bool :=
  ('a' ≤ c && c ≤ 'z') || ('A' ≤ c && c ≤ 'Z')

/-- `_HEADING_RE = ^(#{1,6})\s+(.*)` applied to one line: returns the
heading level and the raw group-2 text. -/
def headingMatch (line : Str) : Option (Nat × Str) :=
  let hashes := line.takeWhile (· = '#')
  let rest := line.dropWhile (· = '#')
  if hashes.length < 1 || 6 < hashes.length then none
  else if (rest.takeWhile pyIsSpace).isEmpty then none
  else some (hashes.length, rest.dropWhile pyIsSpace)

/-- Worker for `dotDigitIters`: structural recursion on fuel (each parsed
block consumes at least two characters, so the caller's fuel never runs
out). -/
def dotDigitItersF : Nat → Str → List Str × Str
  | 0, s => ([], s)
  | fuel + 1, s =>
    match s with
    | '.' :: rest =>
      if (rest.takeWhile pyIsDigit).isEmpty then ([], '.' :: rest)
      else
        match dotDigitItersF fuel (rest.dropWhile pyIsDigit) with
        | (more, r) => (('.' :: rest.takeWhile pyIsDigit) :: more, r)
    | s => ([], s)

/-- Greedy parse of `(\.\d+)*`: the list of consumed `.digits` blocks
(each including its leading dot) and the remaining text. -/
def dotDigitIters (s : Str) : List Str × Str := dotDigitItersF (s.length + 1) s

/-- The `[.\s]\s*(.*)` tail of `_SECTION_NUM_RE`, together with the
backtracking the Python engine performs when the greedy number parse is
not followed by a `.` or whitespace: the innermost most-recent choice
point is retried first, i.e. the last `.digits` block of the optional
letter part is given up, then the whole optional part, then the last
`.digits` block of the first repetition.  Each surrendered block starts
with a dot, which then satisfies `[.\s]`.  Arguments: the greedy digit
run `d`, the `(\.\d+)*` blocks `iters`, the optional `\.[a-z](\.\d+)*`
part, and the remaining text `r`. -/
def sectionSplitFinish (d : Str) (iters : List Str)
    (lopt : Option (Char × List Str)) (r : Str) : Option (Str × Str) :=
  let numOf : Str := d ++ iters.flatten ++
    (match lopt with
     | none => []
     | some (c, jters) => '.' :: c :: jters.flatten)
  match r with
  | c :: rest =>
    if c = '.' || pyIsSpace c then
      some (numOf, rest.dropWhile pyIsSpace)
    else
      match lopt with
      | some (c', jters) =>
        match jters.getLast? with
        | some last =>
          some (d ++ iters.flatten ++ '.' :: c' :: jters.dropLast.flatten,
            last.drop 1 ++ r)
        | none => some (d ++ iters.flatten, c' :: r)
      | none =>
        match iters.getLast? with
        | some last => some (d ++ iters.dropLast.flatten, last.drop 1 ++ r)
        | none => none
  | [] =>
    match lopt with
    | some (c', jters) =>
      match jters.getLast? with
      | some last =>
        some (d ++ iters.flatten ++ '.' :: c' :: jters.dropLast.flatten,
          last.drop 1)
      | none => some (d ++ iters.flatten, [c'])
    | none =>
      match iters.getLast? with
      | some last => some (d ++ iters.dropLast.flatten, last.drop 1)
      | none => none

/-- `_SECTION_NUM_RE = ^(\d{1,3}(?:\.\d+)*(?:\.[a-z](?:\.\d+)*)?)[.\s]\s*(.*)`
applied to a heading title: `some (group1, group2)` on a match.  Hand
compilation of the Python regex with its greedy/backtracking semantics:
the digit run, the `.digits` repetitions and the optional `.letter(.digits)*`
part are consumed greedily; `sectionSplitFinish` then requires a `.` or
whitespace separator, backtracking block by block if it is missing. -/
def sectionNumSplit (t : Str) : Option (Str × Str) :=
  let d := t.takeWhile pyIsDigit
  let r0 := t.dropWhile pyIsDigit
  if d.isEmpty || 3 < d.length then none
  else
    let (iters, r1) := dotDigitIters r0
    match r1 with
    | '.' :: c :: r2 =>
      if isSectionLetter c then
        let (jters, r3) := dotDigitIters r2
        sectionSplitFinish d iters (some (c, jters)) r3
      else sectionSplitFinish d iters none ('.' :: c :: r2)
    | r1 => sectionSplitFinish d iters none r1

/-- A node being built: all `TreeNode` fields except that the children
list only holds the already-finished subtrees. -/
structure PartialNode where
  id : Str
  content : Str
  metadata : NodeMetadata
  token_count : Nat
  children : List TreeNode

/-- Close a finished node. -/
def finishPartial (p : PartialNode) : TreeNode :=
  .mk p.id p.content p.metadata p.children p.token_count

/-- The mutable state of the `index_document` loop: the `(level, node)`
stack (top first, bottom always the root at level 0), the `seen_ids`
set and the `content_parts` buffer. -/
structure BuildState where
  stack : List (Nat × PartialNode)
  seenIds : List Str
  contentParts : List Str

/-- `_unique_id`: return `base` if unseen, else `base_1`, `base_2`, … at
the first free counter; the chosen id is added to the seen set.  The
`while` loop always terminates because among the first `|seen| + 1`
candidates one must be free; the model searches exactly that range (its
`none` fallback is unreachable). -/
def uniqueIdFrom (base : Str) (seen : List Str) : Str × List Str :=
  if base ∈ seen then
    match (List.range (seen.length + 1)).find?
        (fun k => ¬ (base ++ '_' :: (toString (k + 1)).data) ∈ seen) with
    | some k => (base ++ '_' :: (toString (k + 1)).data,
        (base ++ '_' :: (toString (k + 1)).data) :: seen)
    | none => (base, seen)
  else (base, base :: seen)

/-- `_flush_content`: join the buffered lines with newlines, strip, and
write content plus token count onto the current node (the stack top);
reset the buffer. -/
def flushContent (countTokens : Str → Nat) (st : BuildState) : BuildState :=
  match st.contentParts, st.stack with
  | [], _ => { st with contentParts := [] }
  | parts, (l, p) :: rest =>
    let content := pyStrip (List.intercalate ['\n'] parts)
    { st with
      stack := (l, { p with content := content,
                            token_count := countTokens content }) :: rest
      contentParts := [] }
  | _, [] => { st with contentParts := [] }

/-- Worker for `popTo`: `top` is the current stack top, the list the
entries below it. -/
def popToAux (level : Nat) (top : Nat × PartialNode) :
    List (Nat × PartialNode) → List (Nat × PartialNode)
  | [] => [top]
  | (l', p) :: rest =>
    if level ≤ top.1 then
      popToAux level (l', { p with children := p.children ++ [finishPartial top.2] }) rest
    else top :: (l', p) :: rest

/-- The `while len(stack) > 1 and stack[-1][0] >= level` pop loop: each
popped node is finished and appended to the children of the entry below. -/
def popTo (level : Nat) : List (Nat × PartialNode) → List (Nat × PartialNode)
  | [] => []
  | top :: rest => popToAux level top rest

/-- Worker for `collapseStack`. -/
def collapseAux (top : Nat × PartialNode) : List (Nat × PartialNode) → PartialNode
  | [] => top.2
  | (l', p) :: rest =>
    collapseAux (l', { p with children := p.children ++ [finishPartial top.2] }) rest

/-- Fold the whole stack down to the bottom (root) entry.  (In the Python
code children are attached on creation so no final collapse is needed;
here attachment happens on pop, so the end of input pops everything.) -/
def collapseStack : List (Nat × PartialNode) → PartialNode
  | [] => ⟨"root".data, [], ⟨.rulebook, [], []⟩, 0, []⟩
  | top :: rest => collapseAux top rest

/-- One iteration of the `for line in lines` loop of `index_document`. -/
def processLine (countTokens : Str → Nat) (document_type : DocumentType)
    (st : BuildState) (line : Str) : BuildState :=
  match headingMatch line with
  | some (level, g2) =>
    let st := flushContent countTokens st
    let title := pyStrip g2
    let (secNum, secTitle) :=
      match sectionNumSplit title with
      | some (n, t2) => (n, pyStrip t2)
      | none => (([] : Str), title)
    let base :=
      if secNum ≠ [] then secNum
      else ((lc title).map (fun c => if c = ' ' then '_' else c)).take 40
    let (nodeId, seen') := uniqueIdFrom base st.seenIds
    let meta : NodeMetadata :=
      ⟨document_type, secNum, if secTitle = [] then title else secTitle⟩
    { stack := (level, ⟨nodeId, [], meta, 0, []⟩) :: popTo level st.stack
      seenIds := seen'
      contentParts := [] }
  | none =>
    if pyStrip line ≠ [] then { st with contentParts := st.contentParts ++ [line] }
    else if st.contentParts ≠ [] then { st with contentParts := st.contentParts ++ [[]] }
    else st

/-- `index_document(markdown_path, document_name, document_type)`, with the
file's text passed directly and the tiktoken tokenizer abstracted as
`countTokens`. -/
def index_document (countTokens : Str → Nat) (markdown : Str)
    (document_name : Str) (document_type : DocumentType) : DocumentIndex :=
  let lines := pySplitOn '\n' markdown
  let st0 : BuildState :=
    ⟨[(0, ⟨"root".data, [], ⟨document_type, [], document_name⟩, 0, []⟩)], [], []⟩
  let st1 := lines.foldl (processLine countTokens document_type) st0
  let st2 := flushContent countTokens st1
  let root := finishPartial (collapseStack st2.stack)
  { document_name := document_name
    document_type := document_type
    root := root
    total_tokens := (root.walk.map TreeNode.token_count).sum
    source_hash := [] }

/-! ## Router (`router.py`)

The card-name index is passed in as an association list (the JSON file is
a flat dict), the LLM classifier as an `Option Str` parameter (`none`
models an unavailable/failed classification). -/
/-- Stable insertion of `x` into a weakly-descending-by-`key` list:
`x` goes before the first element whose key is not larger, which is
exactly where Python's stable descending sort puts it. -/
def insertDescBy [LinearOrder β] (key : α → β) (x : α) : List α → List α
  | [] => [x]
  | y :: ys => if key y ≤ key x then x :: y :: ys else y :: insertDescBy key x ys

/-- Python's stable `sort(key=..., reverse=True)` / `sorted(..., reverse=True)`:
weakly descending by `key`, ties in original order. -/
def sortDescBy [LinearOrder β] (key : α → β) : List α → List α
  | [] => []
  | x :: xs => insertDescBy key x (sortDescBy key xs)

/-- Python `hay.find(needle)` worker carrying the current index. -/
def strFindAux (needle : Str) : Str → Nat → Option Nat
  | [], i => if needle.isEmpty then some i else none
  | c :: rest, i =>
    if needle.isPrefixOf (c :: rest) then some i else strFindAux needle rest (i + 1)

/-- Python `hay.find(needle)`: index of the first occurrence, `none` for -1. -/
def strFind (needle hay : Str) : Option Nat := strFindAux needle hay 0

/-- `q[i].isalnum()` with a bounds guard. -/
def alnumAt (q : Str) (i : Nat) : Bool :=
  match q.get? i with
  | some c => pyIsAlnum c
  | none => false

/-- One iteration of the `for name in sorted_names` loop of
`_detect_card_names`: state is `(matches, matched_ranges)`.  The word
boundary checks reject a match whose neighbouring characters are
alphanumeric, the overlap check (`any(not (end <= s or start >= e))`)
rejects a span intersecting a previously accepted one. -/
def detectStep (q : Str) (cardIndex : List (Str × Str))
    (st : List (Str × Str) × List (Nat × Nat)) (name : Str) :
    List (Str × Str) × List (Nat × Nat) :=
  match strFind name q with
  | none => st
  | some start =>
    if 0 < start ∧ alnumAt q (start - 1) then st
    else if start + name.length < q.length ∧ alnumAt q (start + name.length) then st
    else if ∃ mr ∈ st.2, ¬ (start + name.length ≤ mr.1 ∨ mr.2 ≤ start) then st
    else (st.1 ++ [(name, assocGetD cardIndex name [])],
      st.2 ++ [(start, start + name.length)])

/-- `_detect_card_names` including its internal `matched_ranges` state. -/
def detectScan (cardIndex : List (Str × Str)) (query : Str) :
    List (Str × Str) × List (Nat × Nat) :=
  if cardIndex.isEmpty then ([], [])
  else
    let q := lc query
    let sortedNames := sortDescBy (fun n : Str => n.length) (cardIndex.map Prod.fst)
    sortedNames.foldl (detectStep q cardIndex) ([], [])

/-- `_detect_card_names(query)`: `(card_name, doc_name)` pairs found in the
query, longest name first, word-boundary checked, non-overlapping. -/
def detect_card_names (cardIndex : List (Str × Str)) (query : Str) :
    List (Str × Str) :=
  (detectScan cardIndex query).1

/-- `_INTERACTION_KEYWORDS`. -/
def interactionKeywords : List Str :=
  ["how does".data, "play off".data, "interact".data, "affect".data,
   "work with".data, "work together".data, "prevent".data, "block".data,
   "stack".data, "combo".data, "combined".data, "does it".data,
   "override".data, "negate".data]

/-- `_has_interaction_intent`. -/
def has_interaction_intent (query : Str) : Bool :=
  interactionKeywords.any (fun kw => pyIn kw (lc query))

/-- `classify(query)`: keyword-pattern query-type classification. -/
def classify (cardIndex : List (Str × Str)) (query : Str) : Str :=
  let q := lc query
  let penaltyKeywords : List Str :=
    ["penalty".data, "infraction".data, "marked card".data, "game loss".data,
     "warning".data, "disqualif".data, "slow play".data, "deck error".data,
     "drawing extra".data, "unsporting".data, "caution".data]
  let formatKeywords : List Str :=
    ["legal".data, "banned".data, "standard".data, "expanded".data,
     "format".data, "rotation".data, "allowed".data, "playable".data]
  let cardKeywords : List Str :=
    ["errata".data, "card text".data, "errata'd".data]
  if penaltyKeywords.any (fun kw => pyIn kw q) then "penalty".data
  else if formatKeywords.any (fun kw => pyIn kw q) then "format_legality".data
  else if cardKeywords.any (fun kw => pyIn kw q) then "card_specific".data
  else
    let cardMatches := detect_card_names cardIndex q
    if ¬ cardMatches.isEmpty && has_interaction_intent q then "card_interaction".data
    else if 2 ≤ cardMatches.length then "card_interaction".data
    else "rules_lookup".data

/-- `_AMBIGUITY_THRESHOLD = 1.0`; `_is_ambiguous(scores)`. -/
def is_ambiguous (scores : List (Str × ℚ)) : Bool :=
  if scores.isEmpty then true
  else
    match sortDescBy id (scores.map Prod.snd) with
    | [] => true
    | [top] => top ≤ 1
    | top :: second :: _ => top ≤ 1 || top - second ≤ 1/2

/-- The persona-bias table of `route`. -/
def personaBias (persona : Str) : List (Str × ℚ) :=
  if persona = "judge".data then
    [("rulebook".data, 1/2), ("penalty_guidelines".data, 1/2)]
  else if persona = "professor".data then
    [("rulebook".data, 1/2), ("penalty_guidelines".data, 3/10)]
  else if persona = "player".data then
    [("rulebook".data, 1/2), ("penalty_guidelines".data, -(1/2))]
  else []

/-- The query-type-bias table of `route`. -/
def typeBias (queryType : Str) : List (Str × ℚ) :=
  if queryType = "penalty".data then [("penalty_guidelines".data, 2)]
  else if queryType = "rules_lookup".data then [("rulebook".data, 1)]
  else if queryType = "format_legality".data then [("legal_card_list".data, 2)]
  else if queryType = "card_specific".data then [("rulebook".data, 1/2)]
  else if queryType = "card_interaction".data then
    [("rulebook".data, 1), ("rulings_compendium".data, 3/2)]
  else []

/-- The resolved query type of `route`: the keyword classification,
overridden by a successful LLM classification when `use_llm` is set and
the keyword scores are ambiguous. -/
def routeQueryType (cardIndex : List (Str × Str)) (query : Str)
    (keywordScores : List (Str × ℚ)) (use_llm : Bool)
    (llmClassify : Option Str) : Str :=
  let base := classify cardIndex query
  if use_llm && is_ambiguous keywordScores then
    match llmClassify with
    | some t => t
    | none => base
  else base

/-- The keyword scores of `route` after the card-name and interaction
boosts (the dict after step 2).  The in-place `+=` updates of the source
are written as one per-key sum: every update is keyed on the document
name, so with the dict's unique keys the final value of each entry is the
base keyword count plus its applicable boosts. -/
def routeKeywordScores (cardIndex : List (Str × Str)) (query : Str)
    (config : DomainConfig) : List (Str × ℚ) :=
  let q := lc query
  let cardMatches := detect_card_names cardIndex query
  let matchedDocs := cardMatches.map Prod.snd
  let interact := ¬ cardMatches.isEmpty && has_interaction_intent query
  config.routing_hints.map (fun dk =>
    (dk.1,
      ((dk.2.countP (fun kw => pyIn (lc kw) q) : ℚ)
        + (if dk.1 ∈ matchedDocs then 3 else 0)
        + (if interact && dk.1 = "rulebook".data then 1 else 0)
        + (if interact && dk.1 = "rulings_compendium".data then 2 else 0))))

/-- The final scores of `route` (the dict after persona and type bias). -/
def route_scores (cardIndex : List (Str × Str)) (query : Str)
    (config : DomainConfig) (persona : Str) (use_llm : Bool)
    (llmClassify : Option Str) : List (Str × ℚ) :=
  let ks := routeKeywordScores cardIndex query config
  let queryType := routeQueryType cardIndex query ks use_llm llmClassify
  ks.map (fun p =>
    (p.1, p.2 + assocGetD (personaBias persona) p.1 0
             + assocGetD (typeBias queryType) p.1 0))

/-- `ranked = sorted(scores.items(), key=lambda x: -x[1])`. -/
def route_ranked (cardIndex : List (Str × Str)) (query : Str)
    (config : DomainConfig) (persona : Str) (use_llm : Bool)
    (llmClassify : Option Str) : List (Str × ℚ) :=
  sortDescBy Prod.snd (route_scores cardIndex query config persona use_llm llmClassify)

/-- The confidence computation of `route`, before rounding: `total` is
`sum(max(0, s) for _, s in ranked) or 1` (Python's `or` yields 1 exactly
when the sum is falsy, i.e. zero). -/
def routeConfidenceRaw (ranked : List (Str × ℚ)) : ℚ :=
  if 2 ≤ ranked.length then
    min 1 ((ranked.headD ([], 0)).2 /
      (if (ranked.map (fun p => max 0 p.2)).sum = 0 then 1
       else (ranked.map (fun p => max 0 p.2)).sum))
  else 4/5

/-- The document-list computation of `route`: every positively scored
document in ranked order; if none, every document tied at the maximum. -/
def route_documents (ranked : List (Str × ℚ)) : List Str :=
  if ((ranked.filter (fun p => 0 < p.2)).map Prod.fst).isEmpty then
    match ranked with
    | [] => []
    | top :: _ => (ranked.filter (fun p => p.2 = top.2)).map Prod.fst
  else (ranked.filter (fun p => 0 < p.2)).map Prod.fst

/-- Round-half-to-even on ℚ (Python's `round` on an exactly representable
value; score arithmetic is modelled exactly in ℚ). -/
def roundHalfEven (x : ℚ) : ℤ :=
  if x - ⌊x⌋ < 1/2 then ⌊x⌋
  else if 1/2 < x - ⌊x⌋ then ⌊x⌋ + 1
  else if ⌊x⌋ % 2 = 0 then ⌊x⌋ else ⌊x⌋ + 1

/-- Python `round(x, 2)`. -/
def pyRound2 (x : ℚ) : ℚ := (roundHalfEven (x * 100) : ℚ) / 100

/-- `route(query, config, persona, use_llm, model)`.  The free-text
`reasoning` trace is presentational and left empty. -/
def route (cardIndex : List (Str × Str)) (query : Str) (config : DomainConfig)
    (persona : Str) (use_llm : Bool) (llmClassify : Option Str) : RouteDecision :=
  { documents := route_documents (route_ranked cardIndex query config persona use_llm llmClassify)
    persona := persona
    confidence := pyRound2 (routeConfidenceRaw
      (route_ranked cardIndex query config persona use_llm llmClassify))
    reasoning := []
    card_names := (detect_card_names cardIndex query).map Prod.fst }

/-! ## Retriever (`retriever.py`)

The LLM ranking oracle is abstracted as a function from the node under
consideration and the query to either a raw response string or a
distinguished error (`auth` for `AuthenticationError`, `conn` for
`APIConnectionError`/`APIStatusError`); the prompt construction from the
per-child previews is presentational and not modelled.  A re-raised
authentication error is an `Except.error`. -/
/-- The two distinguished oracle failures. -/
inductive OracleError where
  | auth
  | conn
deriving DecidableEq, Repr

/-- The external ranking oracle. -/
abbrev Oracle := TreeNode → Str → Except OracleError Str

/-- Python `int(part)` on a digit string. -/
def strToNat (s : Str) : Nat :=
  s.foldl (fun n c => n * 10 + (c.toNat - '0'.toNat)) 0

/-- The response-parsing loop of `_select_children`: split on commas,
strip, keep digit-only parts whose value is a valid child index. -/
def parseSelection (result : Str) (children : List TreeNode) : List TreeNode :=
  (pySplitOn ',' result).foldl (fun acc part0 =>
    let part := pyStrip part0
    if ¬ part.isEmpty && part.all pyIsDigit then
      match children.get? (strToNat part) with
      | some c => acc ++ [c]
      | none => acc
    else acc) []

/-- The per-child score of `_keyword_select_children`: count of distinct
whitespace-split query words occurring in `"{title} {content}".lower()`. -/
def childMatchCount (query : Str) (child : TreeNode) : Nat :=
  ((pySplitWs (lc query)).dedup).countP
    (fun w => pyIn w (lc (child.metadata.title ++ ' ' :: child.content)))

/-- `_keyword_select_children`: children with ≥ 1 matching word, top 3 by
match count (stable descending sort, ties in original child order). -/
def keyword_select_children (node : TreeNode) (query : Str) : List TreeNode :=
  let scored := node.children.filterMap (fun child =>
    if 0 < childMatchCount query child then
      some (childMatchCount query child, child)
    else none)
  ((sortDescBy (fun p : Nat × TreeNode => p.1) scored).take 3).map Prod.snd

/-- `_select_children`: ask the oracle; re-raise an authentication error;
fall back to keyword selection on a connectivity/status error or an
unparseable (empty) selection. -/
def select_children (oracle : Oracle) (node : TreeNode) (query : Str) :
    Except Unit (List TreeNode) :=
  if node.children.isEmpty then .ok []
  else
    match oracle node query with
    | .error .auth => .error ()
    | .error .conn => .ok (keyword_select_children node query)
    | .ok result =>
      if (parseSelection result node.children).isEmpty then
        .ok (keyword_select_children node query)
      else .ok (parseSelection result node.children)

/-- `_build_lookup`: flat `section_number → node` dict built over the
walk (later nodes overwrite earlier ones with the same number, as dict
assignment does). -/
def build_lookup (index : DocumentIndex) : List (Str × TreeNode) :=
  index.root.walk.foldl (fun acc node =>
    if node.metadata.section_number ≠ [] then
      assocPut acc node.metadata.section_number node
    else acc) []

/-- Greedy parse of the capture group
`\d{1,3}(?:\.\d+)*(?:\.[a-z](?:\.\d+)*)?` of `_CROSS_REF_RE` at the start
of `s` (nothing follows the group, so no backtracking arises): the
captured number and the remaining text. -/
def scanSectionNumber (s : Str) : Option (Str × Str) :=
  let d := (s.takeWhile pyIsDigit).take 3
  if d.isEmpty then none
  else
    match dotDigitIters (s.drop d.length) with
    | (iters, r1) =>
      match r1 with
      | '.' :: c :: r2 =>
        if isSectionLetterCI c then
          match dotDigitIters r2 with
          | (jters, r3) => some (d ++ iters.flatten ++ '.' :: c :: jters.flatten, r3)
        else some (d ++ iters.flatten, r1)
      | _ => some (d ++ iters.flatten, r1)

/-- Case-insensitive literal prefix test. -/
def ciPrefix (pref s : Str) : Bool := pref.isPrefixOf (lc s)

/-- The `(?:rule|section)\s+(<number>)` part of `_CROSS_REF_RE` at the
start of `s`: the captured number and the total consumed length. -/
def matchRuleSection (s : Str) : Option (Str × Nat) :=
  if ciPrefix "rule".data s then
    let after := s.drop 4
    let sp := after.takeWhile pyIsSpace
    if sp.isEmpty then none
    else
      match scanSectionNumber (after.drop sp.length) with
      | some (num, _) => some (num, 4 + sp.length + num.length)
      | none => none
  else if ciPrefix "section".data s then
    let after := s.drop 7
    let sp := after.takeWhile pyIsSpace
    if sp.isEmpty then none
    else
      match scanSectionNumber (after.drop sp.length) with
      | some (num, _) => some (num, 7 + sp.length + num.length)
      | none => none
  else none

/-- `_CROSS_REF_RE` tried at the start of `s`: the optional greedy
`(?:see\s+)?` prefix first, retried without it if the rest fails. -/
def matchCrossRefAt (s : Str) : Option (Str × Nat) :=
  if ciPrefix "see".data s then
    let after := s.drop 3
    let sp := after.takeWhile pyIsSpace
    if sp.isEmpty then matchRuleSection s
    else
      match matchRuleSection (after.drop sp.length) with
      | some (num, consumed) => some (num, 3 + sp.length + consumed)
      | none => matchRuleSection s
  else matchRuleSection s

/-- `_CROSS_REF_RE.findall` scanning loop: left to right, non-overlapping,
resuming after each match (every match consumes ≥ 1 character, so the
fuel `s.length + 1` never runs out). -/
def crossRefScan : Nat → Str → List Str
  | 0, _ => []
  | _, [] => []
  | fuel + 1, c :: rest =>
    match matchCrossRefAt (c :: rest) with
    | some (num, consumed) => num :: crossRefScan fuel ((c :: rest).drop consumed)
    | none => crossRefScan fuel rest

/-- `_CROSS_REF_RE.findall(content)`. -/
def findCrossRefs (s : Str) : List Str := crossRefScan (s.length + 1) s

/-- The fixed-score section appended for a resolved cross-reference. -/
def mkCrossSection (document_name : Str) (node : TreeNode) : RetrievedSection :=
  ⟨node, 1/2, document_name, []⟩

/-- The inner `for ref_num in refs` loop of `resolve_cross_references`:
state is `(existing_ids, new_sections)`; `secLen` is `len(sections)`.
The `break` of the source exits only this inner loop. -/
def crossRefInner (lookup : List (Str × TreeNode)) (document_name : Str)
    (maxSections secLen : Nat) :
    List Str → List Str → List RetrievedSection → List Str × List RetrievedSection
  | [], existing, news => (existing, news)
  | ref :: rest, existing, news =>
    match assocGet lookup ref with
    | some node =>
      if node.id ∈ existing then
        crossRefInner lookup document_name maxSections secLen rest existing news
      else
        if maxSections ≤ secLen + (news ++ [mkCrossSection document_name node]).length then
          (existing ++ [node.id], news ++ [mkCrossSection document_name node])
        else
          crossRefInner lookup document_name maxSections secLen rest
            (existing ++ [node.id]) (news ++ [mkCrossSection document_name node])
    | none => crossRefInner lookup document_name maxSections secLen rest existing news

/-- `resolve_cross_references(sections, lookup, document_name, max_sections)`. -/
def resolve_cross_references (sections : List RetrievedSection)
    (lookup : List (Str × TreeNode)) (document_name : Str)
    (maxSections : Nat) : List RetrievedSection :=
  sections ++
    (sections.foldl (fun (st : List Str × List RetrievedSection) rs =>
        crossRefInner lookup document_name maxSections sections.length
          (findCrossRefs rs.node.content) st.1 st.2)
      (sections.map (fun rs => rs.node.id), [])).2

/-- One `for child in selected` pass of `_search_with_llm`: children with
children go to the back of the frontier, leaves become results. -/
def distributeSelected (document_name : Str)
    (acc : List TreeNode × List RetrievedSection) (selected : List TreeNode) :
    List TreeNode × List RetrievedSection :=
  selected.foldl (fun acc child =>
    if ¬ child.children.isEmpty then (acc.1 ++ [child], acc.2)
    else (acc.1, acc.2 ++ [⟨child, 1, document_name, []⟩])) acc

/-- The `while frontier and len(results) < max_sections` loop of
`_search_with_llm`, with explicit fuel (the caller passes enough that it
never runs out: every iteration pops one frontier entry and an entry is
pushed only when an unvisited node is expanded). -/
def searchLLMLoop (oracle : Oracle) (document_name : Str) (query : Str)
    (maxSections : Nat) :
    Nat → List TreeNode → List Str → List RetrievedSection →
      Except Unit (List RetrievedSection)
  | _, [], _, results => .ok results
  | 0, _ :: _, _, results => .ok results
  | fuel + 1, node :: frontier, visited, results =>
    if maxSections ≤ results.length then .ok results
    else if node.id ∈ visited then
      searchLLMLoop oracle document_name query maxSections fuel frontier visited results
    else if ¬ node.children.isEmpty then
      match select_children oracle node query with
      | .error e => .error e
      | .ok selected =>
        match distributeSelected document_name (frontier, results) selected with
        | (newFrontier, newResults) =>
          searchLLMLoop oracle document_name query maxSections fuel newFrontier
            (node.id :: visited) newResults
    else if node.id ≠ "root".data then
      searchLLMLoop oracle document_name query maxSections fuel frontier
        (node.id :: visited) (results ++ [⟨node, 1, document_name, []⟩])
    else
      searchLLMLoop oracle document_name query maxSections fuel frontier
        (node.id :: visited) results

/-- `_search_with_llm`. -/
def search_with_llm (oracle : Oracle) (query : Str) (index : DocumentIndex)
    (lookup : List (Str × TreeNode)) (maxSections : Nat) :
    Except Unit (List RetrievedSection) :=
  match searchLLMLoop oracle index.document_name query maxSections
      ((index.root.walk.length + 1) * (index.root.walk.length + 1))
      [index.root] [] [] with
  | .error e => .error e
  | .ok results =>
    .ok ((resolve_cross_references results lookup index.document_name
      maxSections).take maxSections)

/-- `_search_with_keywords`: score every non-root node by
distinct-query-word overlap divided by the distinct word count. -/
def search_with_keywords (query : Str) (index : DocumentIndex)
    (lookup : List (Str × TreeNode)) (maxSections : Nat) :
    List RetrievedSection :=
  let scored := index.root.walk.filterMap (fun node =>
    if node.id = "root".data then none
    else if 0 < childMatchCount query node then
      some (((childMatchCount query node : ℚ) /
        ((pySplitWs (lc query)).dedup.length : ℚ)), node)
    else none)
  (resolve_cross_references
    (((sortDescBy (fun p : ℚ × TreeNode => p.1) scored).take maxSections).map
      (fun p => ⟨p.2, p.1, index.document_name, []⟩))
    lookup index.document_name maxSections).take maxSections

/-- `search(query, index, max_sections, model, use_llm)`. -/
def search (oracle : Oracle) (query : Str) (index : DocumentIndex)
    (maxSections : Nat) (use_llm : Bool) : Except Unit (List RetrievedSection) :=
  if use_llm then search_with_llm oracle query index (build_lookup index) maxSections
  else .ok (search_with_keywords query index (build_lookup index) maxSections)

/-! ## Example trees used by the retriever theorems -/
/-- Leaf whose title/content share no word with the queries used below. -/
def exLeafA : TreeNode := .mk "a".data "beta".data ⟨.rulebook, [], "alpha".data⟩ [] 0

/-- Leaf matching the query `attack rules`. -/
def exLeafB : TreeNode :=
  .mk "b".data "energy attack rules".data ⟨.rulebook, [], "Attacks".data⟩ [] 0

/-- Leaf matching the word `rules`. -/
def exLeafC : TreeNode :=
  .mk "c".data "retreat rules".data ⟨.rulebook, [], "Retreat".data⟩ [] 0

/-- A three-leaf example index. -/
def exIndex : DocumentIndex :=
  ⟨"doc".data, .rulebook,
    .mk "root".data [] ⟨.rulebook, [], "doc".data⟩ [exLeafA, exLeafB, exLeafC] 0,
    0, []⟩

/-- A one-leaf example index whose only child matches no query word of `zzz`. -/
def exIndexNoMatch : DocumentIndex :=
  ⟨"doc".data, .rulebook,
    .mk "root".data [] ⟨.rulebook, [], "doc".data⟩ [exLeafA] 0, 0, []⟩

/-- Section whose content references section 1.2. -/
def exSecA : TreeNode :=
  .mk "a".data "See section 1.2 for details.".data ⟨.rulebook, [], []⟩ [] 0

/-- Section whose content references section 1.3. -/
def exSecD : TreeNode :=
  .mk "d".data "See section 1.3 for details.".data ⟨.rulebook, [], []⟩ [] 0

/-- The node registered under section number 1.2. -/
def exNodeB : TreeNode := .mk "b".data "bb".data ⟨.rulebook, "1.2".data, []⟩ [] 0

/-- The node registered under section number 1.3. -/
def exNodeC : TreeNode := .mk "c".data "cc".data ⟨.rulebook, "1.3".data, []⟩ [] 0

/-- The invariant of the `_detect_card_names` scan state: accepted spans
are pairwise non-overlapping, word-boundary checked, and each accepted
match's span carries exactly the matched name. -/
def DetectInv (q : Str) (st : List (Str × Str) × List (Nat × Nat)) : Prop :=
  st.2.Pairwise (fun r1 r2 => r1.2 ≤ r2.1 ∨ r2.2 ≤ r1.1) ∧
  (∀ r ∈ st.2,
    (r.1 = 0 ∨ alnumAt q (r.1 - 1) = false) ∧
    (q.length ≤ r.2 ∨ alnumAt q r.2 = false)) ∧
  st.1.length = st.2.length ∧
  (∀ pr ∈ st.1.zip st.2,
    pr.2.2 = pr.2.1 + pr.1.1.length ∧
    (q.drop pr.2.1).take pr.1.1.length = pr.1.1)

/-! ## A fragment of Python's `re` (for `validate_tree`)

`validate_tree` compiles a caller-supplied pattern with `re.compile`
(which raises `re.error` on a malformed pattern) and tests section
numbers with `pattern.match` (truthy iff some prefix of the string
matches).  The engine below models the fragment of Python regex syntax
relevant to section-number validation: literals, escapes (`\d`, `\w`,
`\s` and their negations, escaped punctuation), `.`, character classes,
grouping, alternation, `*`, `+`, `?`, `{m}`/`{m,}`/`{m,n}`/`{,n}`
(optionally lazy), a leading `^` (a no-op for `match`) and a trailing
`$` (end anchor, which also matches just before a final newline).  A
`^`/`$` anywhere else, and a trailing `$` scoping over a top-level
alternation, are outside the fragment and rejected, so every pattern the
model compiles is accepted by `re.compile` with the same `match`
truthiness.  Matching is via Brzozowski derivatives; greedy versus lazy
is irrelevant to match existence. -/
/-- Regular-expression ASTs with predicate character classes. -/
inductive Rx where
  | zero
  | eps
  | pred (p : Char → Bool)
  | cat (a b : Rx)
  | alt (a b : Rx)
  | star (a : Rx)

/-- `n`-fold repetition. -/
def rxRepeat (r : Rx) : Nat → Rx
  | 0 => .eps
  | n + 1 => .cat r (rxRepeat r n)

/-- Up-to-`n`-fold repetition. -/
def rxUpTo (r : Rx) : Nat → Rx
  | 0 => .eps
  | n + 1 => .alt .eps (.cat r (rxUpTo r n))

/-- One escape class: the regex for `\c`, or `none` for Python's
`bad escape` error (an unknown letter/digit escape). -/
def escapeRx (c : Char) : Option Rx :=
  if c = 'd' then some (.pred pyIsDigit)
  else if c = 'D' then some (.pred (fun x => ¬ pyIsDigit x))
  else if c = 'w' then some (.pred (fun x => pyIsAlnum x || x = '_'))
  else if c = 'W' then some (.pred (fun x => ¬ (pyIsAlnum x || x = '_')))
  else if c = 's' then some (.pred pyIsSpace)
  else if c = 'S' then some (.pred (fun x => ¬ pyIsSpace x))
  else if c.isAlphanum then none
  else some (.pred (fun x => x = c))

/-- One item of a character class: a category escape (`\d`, `\w`, ...),
an escaped literal, or a plain character.  The first component is `some c`
when the item is a single character usable as a range bound, `none` for a
category escape (which Python's `re` refuses as a range bound with
`bad character range`); `none` overall is a bad escape or a truncated
pattern. -/
def parseClassItem : Str → Option ((Option Char × (Char → Bool)) × Str)
  | [] => none
  | '\\' :: rest =>
    match rest with
    | [] => none
    | e :: rest' =>
      if e = 'd' ∨ e = 'D' ∨ e = 'w' ∨ e = 'W' ∨ e = 's' ∨ e = 'S' then
        match escapeRx e with
        | some (.pred p) => some ((none, p), rest')
        | _ => none
      else if e.isAlphanum then none
      else some ((some e, fun x => x = e), rest')
  | c :: rest => some ((some c, fun x => x = c), rest)

/-- Parse the items of a character class after `[` (and after its
optional leading `^`): returns the member predicate and the rest after
the closing `]`, or `none` for an unterminated class, a bad escape, or a
bad range (a category bound, or reversed bounds — `re.error
"bad character range"`).  `first` marks the position right after
`[`/`[^`, where `]` is a literal. -/
def parseClassItems : Nat → Bool → Str → Option ((Char → Bool) × Str)
  | 0, _, _ => none
  | _ + 1, _, [] => none
  | fuel + 1, first, c :: rest =>
    if c = ']' ∧ ¬ first then some (fun _ => false, rest)
    else
      match parseClassItem (c :: rest) with
      | none => none
      | some ((lit, p), rest1) =>
        match rest1 with
        | '-' :: rest2 =>
          match rest2 with
          | ']' :: _ =>
            -- trailing `-` is a literal
            match parseClassItems fuel false ('-' :: rest2) with
            | some (q, r) => some (fun x => p x || q x, r)
            | none => none
          | _ =>
            match lit with
            | none => none
            | some lo =>
              match parseClassItem rest2 with
              | none => none
              | some ((some hi, _), rest3) =>
                if hi < lo then none
                else
                  match parseClassItems fuel false rest3 with
                  | some (q, r) => some (fun x => (lo ≤ x ∧ x ≤ hi) || q x, r)
                  | none => none
              | some ((none, _), _) => none
        | _ =>
          match parseClassItems fuel false rest1 with
          | some (q, r) => some (fun x => p x || q x, r)
          | none => none

/-- Parse a character class after the opening `[`. -/
def parseClass (fuel : Nat) (s : Str) : Option ((Char → Bool) × Str) :=
  match s with
  | '^' :: rest =>
    match parseClassItems fuel true rest with
    | some (p, r) => some (fun x => ¬ p x, r)
    | none => none
  | rest => parseClassItems fuel true rest

/-- Parse `{m}`, `{m,}`, `{m,n}`, `{,n}` or `{,}` after an atom (an
omitted `m` is 0, an omitted `n` is unbounded, as in Python 3.11's `re`):
the bounds and the rest, `none` when the braces do not form a quantifier
(then `{` is a literal, as in `{}` or `{x}`). -/
def parseBrace (s : Str) : Option (Nat × Option Nat × Str) :=
  let ds := s.takeWhile pyIsDigit
  let rest := s.dropWhile pyIsDigit
  match rest with
  | '}' :: r =>
    if ds.isEmpty then none
    else some (strToNat ds, some (strToNat ds), r)
  | ',' :: rest2 =>
    let ds2 := rest2.takeWhile pyIsDigit
    let rest3 := rest2.dropWhile pyIsDigit
    match rest3 with
    | '}' :: r =>
      if ds2.isEmpty then some (strToNat ds, none, r)
      else some (strToNat ds, some (strToNat ds2), r)
    | _ => none
  | _ => none

mutual

/-- Parse one atom (literal, escape, class, group, `.`; a `^` or `$`
at atom position — i.e. not the leading/trailing anchor stripped by
`compilePattern` — is outside the fragment, see the fragment note). -/
def parseAtom : Nat → Str → Option (Rx × Str)
  | 0, _ => none
  | _ + 1, [] => none
  | fuel + 1, c :: rest =>
    if c = '(' then
      match rest with
      | '?' :: ':' :: rest' =>
        match parseAlt fuel rest' with
        | some (r, ')' :: rest'') => some (r, rest'')
        | _ => none
      | '?' :: _ => none
      | _ =>
        match parseAlt fuel rest with
        | some (r, ')' :: rest'') => some (r, rest'')
        | _ => none
    else if c = '[' then
      match parseClass fuel rest with
      | some (p, r) => some (.pred p, r)
      | none => none
    else if c = '\\' then
      match rest with
      | [] => none
      | e :: rest' =>
        match escapeRx e with
        | some r => some (r, rest')
        | none => none
    else if c = '.' then some (.pred (fun x => x ≠ '\n'), rest)
    else if c = '^' ∨ c = '$' then none
    else if c = '*' ∨ c = '+' ∨ c = '?' ∨ c = ')' ∨ c = '|' then none
    else if c = '{' ∧ (parseBrace rest).isSome then none
    else some (.pred (fun x => x = c), rest)

/-- Parse an atom followed by at most one quantifier (with an optional
lazy `?`); a stacked quantifier is Python's `multiple repeat` error. -/
def parsePiece : Nat → Str → Option (Rx × Str)
  | 0, _ => none
  | fuel + 1, s =>
    match parseAtom fuel s with
    | none => none
    | some (r, rest) =>
      match rest with
      | '*' :: rest' => somePiece (.star r) rest'
      | '+' :: rest' => somePiece (.cat r (.star r)) rest'
      | '?' :: rest' => somePiece (.alt .eps r) rest'
      | '{' :: rest' =>
        match parseBrace rest' with
        | some (lo, some hi, rest'') =>
          if hi < lo then none
          else somePiece (.cat (rxRepeat r lo) (rxUpTo r (hi - lo))) rest''
        | some (lo, none, rest'') => somePiece (.cat (rxRepeat r lo) (.star r)) rest''
        | none => some (r, rest)
      | _ => some (r, rest)

/-- Attach the optional lazy marker and reject a stacked quantifier. -/
def somePiece (r : Rx) : Str → Option (Rx × Str)
  | '?' :: rest =>
    match rest with
    | '*' :: _ => none
    | '+' :: _ => none
    | '?' :: _ => none
    | _ => some (r, rest)
  | '*' :: _ => none
  | '+' :: _ => none
  | rest => some (r, rest)

/-- Parse a concatenation (a possibly empty run of pieces). -/
def parseCat : Nat → Str → Option (Rx × Str)
  | 0, _ => none
  | fuel + 1, s =>
    match s with
    | [] => some (.eps, [])
    | ')' :: _ => some (.eps, s)
    | '|' :: _ => some (.eps, s)
    | _ =>
      match parsePiece fuel s with
      | none => none
      | some (r, rest) =>
        match parseCat fuel rest with
        | some (r2, rest2) => some (.cat r r2, rest2)
        | none => none

/-- Parse an alternation. -/
def parseAlt : Nat → Str → Option (Rx × Str)
  | 0, _ => none
  | fuel + 1, s =>
    match parseCat fuel s with
    | none => none
    | some (r, rest) =>
      match rest with
      | '|' :: rest' =>
        match parseAlt fuel rest' with
        | some (r2, rest2) => some (.alt r r2, rest2)
        | none => none
      | _ => some (r, rest)

end

/-! ## Heading split against the claimed pattern (C7) -/
/-- A `\.\d+` block: a dot followed by one or more digits. -/
def isDigitsBlock (b : Str) : Prop :=
  ∃ ds : Str, ds ≠ [] ∧ (∀ c ∈ ds, pyIsDigit c = true) ∧ b = '.' :: ds

/-- Written from the spec's words: `numText` matches
`\d+(\.\d+)*(\.[a-z](\.\d+)*)?`, with the leading digit run bounded by
`bound` when one is given (`none` models the claim's "any digit count",
`some 3` the `\d{1,3}` of the code). -/
def SpecSectionNum (bound : Option Nat) (numText : Str) : Prop :=
  ∃ (d : Str) (blocks : List Str) (lopt : Option (Char × List Str)),
    d ≠ [] ∧ (∀ c ∈ d, pyIsDigit c = true) ∧
    (∀ b ∈ bound, d.length ≤ b) ∧
    (∀ blk ∈ blocks, isDigitsBlock blk) ∧
    (match lopt with
     | none => numText = d ++ blocks.flatten
     | some (l, jblocks) => isSectionLetter l = true ∧
         (∀ blk ∈ jblocks, isDigitsBlock blk) ∧
         numText = d ++ blocks.flatten ++ '.' :: l :: jblocks.flatten)

/-- Written from the spec's words: the heading text begins with the
numeric section pattern followed by `.` or whitespace. -/
def ClaimHeadingSplits (bound : Option Nat) (t : Str) : Prop :=
  ∃ numText c rest, t = numText ++ c :: rest ∧ SpecSectionNum bound numText ∧
    (c = '.' ∨ pyIsSpace c = true)

/-- Does the text start with a `.digit` pair (i.e. could `(\.\d+)*` take
another iteration). -/
def dotDigitStart : Str → Bool
  | '.' :: c :: _ => pyIsDigit c
  | _ => false

/-- Does the text start with a `.` or a whitespace character (`[.\s]`). -/
def headDotSpace : Str → Bool
  | [] => false
  | c :: _ => c = '.' || pyIsSpace c

/-! ## Theorems -/

theorem DocumentType.ofValue_value (d : DocumentType) :
    DocumentType.ofValue d.value = some d := by
  cases d <;> decide

mutual

theorem dictToNode_nodeToDict : ∀ n : TreeNode, dictToNode (nodeToDict n) = some n
  | .mk i c m ch t => by
    rw [nodeToDict, dictToNode, DocumentType.ofValue_value,
      dictToNodeAll_nodeToDictAll ch]

theorem dictToNodeAll_nodeToDictAll :
    ∀ l : List TreeNode, dictToNodeAll (nodeToDictAll l) = some l
  | [] => rfl
  | n :: ns => by
    rw [nodeToDictAll, dictToNodeAll, dictToNode_nodeToDict n,
      dictToNodeAll_nodeToDictAll ns]

end

/-- C2: for every constructed `DocumentIndex`, of arbitrary tree depth,
`load_tree` applied to the serialized form written by `save_tree` yields a
`DocumentIndex` equal in every attribute value: same `document_name`,
`document_type`, `total_tokens`, `source_hash`, and an identical tree
(ids, child ordering, content, metadata, token counts). -/
theorem load_save_roundtrip (index : DocumentIndex) :
    load_tree (save_tree index) = some index := by
  rw [load_tree, save_tree]
  rw [dictToNode_nodeToDict, DocumentType.ofValue_value]

/-- C9: for every markdown input (and every tokenizer), the
`DocumentIndex` returned by `index_document` has `total_tokens` equal to
the sum of `token_count` over every node produced by `walk` on the root,
root included. -/
theorem total_tokens_eq_walk_sum (countTokens : Str → Nat) (markdown : Str)
    (document_name : Str) (document_type : DocumentType) :
    (index_document countTokens markdown document_name document_type).total_tokens =
      (((index_document countTokens markdown document_name document_type).root.walk).map
        TreeNode.token_count).sum := rfl

/-- C1 fails on the code: `seen_ids` starts empty, so a heading whose
derived base id is exactly `root` collides with the synthetic root node:
indexing the one-line markdown `# root` produces two nodes that both
carry the id `root`. -/
theorem index_document_duplicate_root_id :
    (((index_document (fun s => s.length) "# root".data "doc".data
        .rulebook).root.walk).map TreeNode.id) = ["root".data, "root".data] ∧
    ¬ ((((index_document (fun s => s.length) "# root".data "doc".data
        .rulebook).root.walk).map TreeNode.id).Nodup) := by
  constructor
  · rfl
  · decide

/-! ## Sorting lemmas -/
theorem insertDescBy_perm [LinearOrder β] (key : α → β) (x : α) :
    ∀ l : List α, List.Perm (insertDescBy key x l) (x :: l)
  | [] => List.Perm.refl _
  | y :: ys => by
    unfold insertDescBy
    split
    · exact List.Perm.refl _
    · exact ((insertDescBy_perm key x ys).cons y).trans (List.Perm.swap x y ys)

theorem sortDescBy_perm [LinearOrder β] (key : α → β) :
    ∀ l : List α, List.Perm (sortDescBy key l) l
  | [] => List.Perm.refl _
  | x :: xs =>
    (insertDescBy_perm key x (sortDescBy key xs)).trans
      ((sortDescBy_perm key xs).cons x)

theorem insertDescBy_sorted [LinearOrder β] (key : α → β) (x : α)
    {l : List α} (hl : l.Sorted (fun a b => key b ≤ key a)) :
    (insertDescBy key x l).Sorted (fun a b => key b ≤ key a) := by
  induction l with
  | nil => simp [insertDescBy]
  | cons y ys ih =>
    rw [List.sorted_cons] at hl
    unfold insertDescBy
    split
    · rename_i hxy
      rw [List.sorted_cons]
      refine ⟨fun z hz => ?_, List.sorted_cons.mpr hl⟩
      rcases List.mem_cons.mp hz with rfl | hz
      · exact hxy
      · exact le_trans (hl.1 z hz) hxy
    · rename_i hxy
      rw [List.sorted_cons]
      refine ⟨fun z hz => ?_, ih hl.2⟩
      have hz' := (insertDescBy_perm key x ys).mem_iff.mp hz
      rcases List.mem_cons.mp hz' with rfl | hz'
      · exact le_of_not_le hxy
      · exact hl.1 z hz'

theorem sortDescBy_sorted [LinearOrder β] (key : α → β) :
    ∀ l : List α, (sortDescBy key l).Sorted (fun a b => key b ≤ key a)
  | [] => List.sorted_nil
  | x :: xs => insertDescBy_sorted key x (sortDescBy_sorted key xs)

theorem sortDescBy_head_ge [LinearOrder β] (key : α → β) {l : List α}
    {x h : α} (hx : x ∈ l) (hh : (sortDescBy key l).head? = some h) :
    key x ≤ key h := by
  have hmem : x ∈ sortDescBy key l := (sortDescBy_perm key l).mem_iff.mpr hx
  have hs := sortDescBy_sorted key l
  cases hsl : sortDescBy key l with
  | nil => rw [hsl] at hmem; cases hmem
  | cons a t =>
    rw [hsl] at hmem hs hh
    rw [List.head?_cons, Option.some_inj] at hh
    subst hh
    rw [List.sorted_cons] at hs
    rcases List.mem_cons.mp hmem with rfl | hmem
    · exact le_refl _
    · exact hs.1 x hmem

/-! ## Router theorems -/
theorem assocGetD_nonneg_of {k : Str} {m : List (Str × ℚ)}
    (h : ∀ p ∈ m, p.1 = k → 0 ≤ p.2) : 0 ≤ assocGetD m k 0 := by
  unfold assocGetD assocGet
  rcases hf : List.find? (fun p => decide (p.1 = k)) m with _ | p
  · rw [hf]
    simp
  · rw [hf]
    simp only [Option.map_some', Option.getD_some]
    have hp := List.find?_some hf
    simp only [decide_eq_true_eq] at hp
    exact h p (List.mem_of_find?_eq_some hf) hp

theorem personaBias_nonneg (persona k : Str)
    (hk : k ≠ "penalty_guidelines".data) :
    0 ≤ assocGetD (personaBias persona) k 0 := by
  apply assocGetD_nonneg_of
  intro p hp hpk
  unfold personaBias at hp
  split_ifs at hp
  all_goals first
    | exact absurd hp (List.not_mem_nil p)
    | (simp only [List.mem_cons, List.not_mem_nil, or_false] at hp
       rcases hp with rfl | rfl
       · norm_num
       · exact (hk hpk.symm).elim)

theorem typeBias_nonneg (queryType k : Str) :
    0 ≤ assocGetD (typeBias queryType) k 0 := by
  apply assocGetD_nonneg_of
  intro p hp _
  unfold typeBias at hp
  split_ifs at hp
  all_goals first
    | exact absurd hp (List.not_mem_nil p)
    | (simp only [List.mem_cons, List.not_mem_nil, or_false] at hp
       rcases hp with rfl | rfl <;> norm_num)

theorem ite_nonneg_q (c : Prop) [Decidable c] {a : ℚ} (ha : 0 ≤ a) :
    0 ≤ if c then a else (0:ℚ) := by
  split_ifs <;> simp [ha]

theorem route_scores_entry (cardIndex : List (Str × Str)) (query : Str)
    (config : DomainConfig) (persona : Str) (use_llm : Bool)
    (llmClassify : Option Str) {p : Str × ℚ}
    (hp : p ∈ route_scores cardIndex query config persona use_llm llmClassify) :
    p.1 ∈ config.routing_hints.map Prod.fst ∧
      (p.1 ≠ "penalty_guidelines".data → 0 ≤ p.2) := by
  unfold route_scores routeKeywordScores at hp
  rw [List.map_map] at hp
  obtain ⟨dk, hdk, hpe⟩ := List.mem_map.mp hp
  subst hpe
  refine ⟨List.mem_map.mpr ⟨dk, hdk, rfl⟩, ?_⟩
  intro hne
  simp only [Function.comp_apply] at hne ⊢
  refine add_nonneg (add_nonneg ?_ ?_) ?_
  · refine add_nonneg (add_nonneg (add_nonneg ?_ ?_) ?_) ?_
    · positivity
    · exact ite_nonneg_q _ (by norm_num)
    · exact ite_nonneg_q _ (by norm_num)
    · exact ite_nonneg_q _ (by norm_num)
  · exact personaBias_nonneg persona dk.1 hne
  · exact typeBias_nonneg _ dk.1

theorem roundHalfEven_nonneg {x : ℚ} (h : 0 ≤ x) : 0 ≤ roundHalfEven x := by
  unfold roundHalfEven
  have hn : (0:ℤ) ≤ ⌊x⌋ := Int.floor_nonneg.mpr h
  split_ifs <;> omega

theorem roundHalfEven_le_hundred {x : ℚ} (h : x ≤ 100) : roundHalfEven x ≤ 100 := by
  unfold roundHalfEven
  have hn : ⌊x⌋ ≤ 100 := by
    have := Int.floor_le_floor (α := ℚ) h
    simpa using this
  split_ifs with h1 h2 h3
  · exact hn
  · have hfl : (⌊x⌋ : ℚ) ≤ x := Int.floor_le x
    have : (⌊x⌋ : ℚ) < 100 := by
      push_neg at h1
      linarith
    have : ⌊x⌋ < 100 := by exact_mod_cast this
    omega
  · exact hn
  · have hfl : (⌊x⌋ : ℚ) ≤ x := Int.floor_le x
    have : (⌊x⌋ : ℚ) < 100 := by
      push_neg at h1
      linarith
    have : ⌊x⌋ < 100 := by exact_mod_cast this
    omega

theorem pyRound2_bounds {x : ℚ} (h0 : 0 ≤ x) (h1 : x ≤ 1) :
    0 ≤ pyRound2 x ∧ pyRound2 x ≤ 1 := by
  unfold pyRound2
  have hl : 0 ≤ roundHalfEven (x * 100) := roundHalfEven_nonneg (by linarith)
  have hr : roundHalfEven (x * 100) ≤ 100 := roundHalfEven_le_hundred (by linarith)
  constructor
  · positivity
  · rw [div_le_one (by norm_num)]
    exact_mod_cast hr

theorem route_scores_keys (cardIndex : List (Str × Str)) (query : Str)
    (config : DomainConfig) (persona : Str) (use_llm : Bool)
    (llmClassify : Option Str) :
    (route_scores cardIndex query config persona use_llm llmClassify).map Prod.fst =
      config.routing_hints.map Prod.fst := by
  unfold route_scores routeKeywordScores
  rw [List.map_map, List.map_map]
  rfl

theorem exists_key_ne_of_two {l : List Str} (hnd : l.Nodup) (hl : 2 ≤ l.length)
    (k : Str) : ∃ a ∈ l, a ≠ k := by
  match l, hl with
  | a :: b :: t, _ =>
    have hab : a ≠ b := by
      rw [List.nodup_cons] at hnd
      exact fun h => hnd.1 (h ▸ List.mem_cons_self b t)
    by_cases ha : a = k
    · exact ⟨b, List.mem_cons_of_mem a (List.mem_cons_self b t),
        fun hb => hab (ha.trans hb.symm)⟩
    · exact ⟨a, List.mem_cons_self a _, ha⟩

theorem routeConfidenceRaw_bounds (cardIndex : List (Str × Str)) (query : Str)
    (config : DomainConfig) (persona : Str) (use_llm : Bool)
    (llmClassify : Option Str)
    (hk : (config.routing_hints.map Prod.fst).Nodup) :
    0 ≤ routeConfidenceRaw
        (route_ranked cardIndex query config persona use_llm llmClassify) ∧
      routeConfidenceRaw
        (route_ranked cardIndex query config persona use_llm llmClassify) ≤ 1 := by
  by_cases hlen : 2 ≤ (route_ranked cardIndex query config persona use_llm
      llmClassify).length
  case neg =>
    unfold routeConfidenceRaw
    rw [if_neg hlen]
    norm_num
  case pos =>
    -- with ≥ 2 documents and unique keys some document is not
    -- penalty_guidelines; every other document's final score is
    -- nonnegative and the head of the descending sort dominates it.
    have hkeys := route_scores_keys cardIndex query config persona use_llm llmClassify
    have hperm := sortDescBy_perm (Prod.snd (β := ℚ))
      (route_scores cardIndex query config persona use_llm llmClassify)
    have hlen2 : 2 ≤ (route_scores cardIndex query config persona use_llm
        llmClassify).length := by
      have hle := hperm.length_eq
      unfold route_ranked at hlen
      omega
    have hkl : 2 ≤ ((route_scores cardIndex query config persona use_llm
        llmClassify).map Prod.fst).length := by
      rw [List.length_map]
      exact hlen2
    have hnd : ((route_scores cardIndex query config persona use_llm
        llmClassify).map Prod.fst).Nodup := hkeys ▸ hk
    obtain ⟨a, ha, hane⟩ := exists_key_ne_of_two hnd hkl "penalty_guidelines".data
    obtain ⟨p, hp, hpa⟩ := List.mem_map.mp ha
    have hp0 : 0 ≤ p.2 := (route_scores_entry cardIndex query config persona
      use_llm llmClassify hp).2 (hpa ▸ hane)
    obtain ⟨top, rest, hcons⟩ := List.exists_cons_of_ne_nil
      (l := route_ranked cardIndex query config persona use_llm llmClassify)
      (by
        intro hnil
        rw [hnil] at hlen
        simp at hlen)
    have hcons' : sortDescBy (Prod.snd (β := ℚ))
        (route_scores cardIndex query config persona use_llm llmClassify)
          = top :: rest := hcons
    have htop : p.2 ≤ top.2 := by
      apply sortDescBy_head_ge (Prod.snd (β := ℚ)) hp
      rw [hcons']
      rfl
    have htop0 : 0 ≤ top.2 := le_trans hp0 htop
    have hsum0 : 0 ≤ ((top :: rest).map (fun p => max 0 p.2)).sum :=
      List.sum_nonneg (by
        intro x hx
        obtain ⟨q, _, hq⟩ := List.mem_map.mp hx
        exact hq ▸ le_max_left 0 q.2)
    unfold routeConfidenceRaw
    rw [if_pos hlen, hcons]
    simp only [List.headD_cons]
    by_cases hz : (((top :: rest).map (fun p => max 0 p.2)).sum = 0)
    · rw [if_pos hz]
      exact ⟨le_min (by norm_num) (by simpa using htop0), min_le_left _ _⟩
    · rw [if_neg hz]
      have hpos : 0 < ((top :: rest).map (fun p => max 0 p.2)).sum :=
        lt_of_le_of_ne hsum0 (Ne.symm hz)
      exact ⟨le_min (by norm_num) (div_nonneg htop0 (le_of_lt hpos)),
        min_le_left _ _⟩

/-- C3: for every query, persona, card-name index and domain config (with
the dict's unique document keys), `route` returns a confidence within
[0, 1] inclusive, computed as `min(1, top_score / sum_of_nonnegative_final_scores)`
with denominator 1 when that sum is 0 whenever at least 2 documents are
scored, a fixed 0.8 when fewer than 2 are scored, and rounded to 2
decimals. -/
theorem route_confidence_in_unit_interval (cardIndex : List (Str × Str))
    (query : Str) (config : DomainConfig) (persona : Str) (use_llm : Bool)
    (llmClassify : Option Str)
    (hk : (config.routing_hints.map Prod.fst).Nodup) :
    0 ≤ (route cardIndex query config persona use_llm llmClassify).confidence ∧
    (route cardIndex query config persona use_llm llmClassify).confidence ≤ 1 ∧
    (route cardIndex query config persona use_llm llmClassify).confidence =
      pyRound2
        (if 2 ≤ (route_ranked cardIndex query config persona use_llm llmClassify).length then
          min 1
            (((route_ranked cardIndex query config persona use_llm llmClassify).headD
                ([], 0)).2 /
              (if ((route_ranked cardIndex query config persona use_llm
                    llmClassify).map (fun p => max 0 p.2)).sum = 0 then 1
               else ((route_ranked cardIndex query config persona use_llm
                    llmClassify).map (fun p => max 0 p.2)).sum))
        else 4/5) := by
  obtain ⟨h0, h1⟩ := routeConfidenceRaw_bounds cardIndex query config persona
    use_llm llmClassify hk
  obtain ⟨hr0, hr1⟩ := pyRound2_bounds h0 h1
  exact ⟨hr0, hr1, rfl⟩

/-- Closed witness for C3 at a concrete query and two-document config. -/
theorem route_confidence_in_unit_interval_witness :
    0 ≤ (route [] "penalty for slow play".data
        ⟨"d".data, [("rulebook".data, ["rule".data]),
          ("penalty_guidelines".data, ["penalty".data])]⟩
        "judge".data false none).confidence ∧
    (route [] "penalty for slow play".data
        ⟨"d".data, [("rulebook".data, ["rule".data]),
          ("penalty_guidelines".data, ["penalty".data])]⟩
        "judge".data false none).confidence ≤ 1 ∧
    (route [] "penalty for slow play".data
        ⟨"d".data, [("rulebook".data, ["rule".data]),
          ("penalty_guidelines".data, ["penalty".data])]⟩
        "judge".data false none).confidence =
      pyRound2
        (if 2 ≤ (route_ranked [] "penalty for slow play".data
            ⟨"d".data, [("rulebook".data, ["rule".data]),
              ("penalty_guidelines".data, ["penalty".data])]⟩
            "judge".data false none).length then
          min 1
            (((route_ranked [] "penalty for slow play".data
                ⟨"d".data, [("rulebook".data, ["rule".data]),
                  ("penalty_guidelines".data, ["penalty".data])]⟩
                "judge".data false none).headD ([], 0)).2 /
              (if ((route_ranked [] "penalty for slow play".data
                    ⟨"d".data, [("rulebook".data, ["rule".data]),
                      ("penalty_guidelines".data, ["penalty".data])]⟩
                    "judge".data false none).map (fun p => max 0 p.2)).sum = 0 then 1
               else ((route_ranked [] "penalty for slow play".data
                    ⟨"d".data, [("rulebook".data, ["rule".data]),
                      ("penalty_guidelines".data, ["penalty".data])]⟩
                    "judge".data false none).map (fun p => max 0 p.2)).sum))
        else 4/5) :=
  route_confidence_in_unit_interval [] "penalty for slow play".data
    ⟨"d".data, [("rulebook".data, ["rule".data]),
      ("penalty_guidelines".data, ["penalty".data])]⟩
    "judge".data false none (by decide)

/-- C10: for every query, persona and config whose `routing_hints` contain
at least one document, `route` returns a non-empty document list: the
positively scored documents in (weakly) descending score order when some
final score is positive, and every document tied at the maximum score
otherwise. -/
theorem route_documents_nonempty (cardIndex : List (Str × Str)) (query : Str)
    (config : DomainConfig) (persona : Str) (use_llm : Bool)
    (llmClassify : Option Str) (h : config.routing_hints ≠ []) :
    (route cardIndex query config persona use_llm llmClassify).documents ≠ [] ∧
    List.Sorted (fun a b : Str × ℚ => b.2 ≤ a.2)
      (route_ranked cardIndex query config persona use_llm llmClassify) ∧
    ((∃ p ∈ route_ranked cardIndex query config persona use_llm llmClassify,
        0 < p.2) →
      (route cardIndex query config persona use_llm llmClassify).documents =
        ((route_ranked cardIndex query config persona use_llm llmClassify).filter
          (fun p => 0 < p.2)).map Prod.fst) ∧
    ((∀ p ∈ route_ranked cardIndex query config persona use_llm llmClassify,
        p.2 ≤ 0) →
      ∃ top rest,
        route_ranked cardIndex query config persona use_llm llmClassify
          = top :: rest ∧
        (route cardIndex query config persona use_llm llmClassify).documents =
          ((route_ranked cardIndex query config persona use_llm llmClassify).filter
            (fun p => p.2 = top.2)).map Prod.fst) := by
  have hperm := sortDescBy_perm (Prod.snd (β := ℚ))
    (route_scores cardIndex query config persona use_llm llmClassify)
  have hslen : (route_scores cardIndex query config persona use_llm
      llmClassify).length = config.routing_hints.length := by
    unfold route_scores routeKeywordScores
    rw [List.map_map, List.length_map]
  have hrne : route_ranked cardIndex query config persona use_llm llmClassify ≠ [] := by
    intro hnil
    have hlen := hperm.length_eq
    unfold route_ranked at hnil
    rw [hnil] at hlen
    rw [hslen] at hlen
    exact h (List.eq_nil_of_length_eq_zero hlen.symm)
  obtain ⟨top, rest, hcons⟩ := List.exists_cons_of_ne_nil hrne
  have hdoc : (route cardIndex query config persona use_llm llmClassify).documents
      = route_documents (route_ranked cardIndex query config persona use_llm
        llmClassify) := rfl
  refine ⟨?_, sortDescBy_sorted _ _, ?_, ?_⟩
  · -- non-emptiness
    rw [hdoc]
    unfold route_documents
    split_ifs with he
    · rw [hcons]
      have htopmem : top ∈ (top :: rest).filter (fun p => p.2 = top.2) :=
        List.mem_filter.mpr ⟨List.mem_cons_self _ _, by simp⟩
      intro hnil
      rw [List.map_eq_nil_iff] at hnil
      rw [hnil] at htopmem
      cases htopmem
    · intro hnil
      rw [hnil] at he
      simp at he
  · -- some positive score
    intro ⟨p, hp, hppos⟩
    rw [hdoc]
    unfold route_documents
    rw [if_neg]
    intro he
    rw [List.isEmpty_iff, List.map_eq_nil_iff, List.filter_eq_nil_iff] at he
    exact he p hp (by simpa using hppos)
  · -- no positive score
    intro hall
    refine ⟨top, rest, hcons, ?_⟩
    rw [hdoc]
    unfold route_documents
    rw [if_pos, hcons]
    · rw [List.isEmpty_iff, List.map_eq_nil_iff, List.filter_eq_nil_iff]
      intro p hp
      simpa using not_lt.mpr (hall p hp)

/-- Closed witness for C10 at a concrete query and config. -/
theorem route_documents_nonempty_witness :
    (route [] "zzz".data ⟨"d".data, [("penalty_guidelines".data, [])]⟩
        "player".data false none).documents ≠ [] ∧
    List.Sorted (fun a b : Str × ℚ => b.2 ≤ a.2)
      (route_ranked [] "zzz".data ⟨"d".data, [("penalty_guidelines".data, [])]⟩
        "player".data false none) ∧
    ((∃ p ∈ route_ranked [] "zzz".data
        ⟨"d".data, [("penalty_guidelines".data, [])]⟩ "player".data false none,
        0 < p.2) →
      (route [] "zzz".data ⟨"d".data, [("penalty_guidelines".data, [])]⟩
          "player".data false none).documents =
        ((route_ranked [] "zzz".data ⟨"d".data, [("penalty_guidelines".data, [])]⟩
          "player".data false none).filter (fun p => 0 < p.2)).map Prod.fst) ∧
    ((∀ p ∈ route_ranked [] "zzz".data
        ⟨"d".data, [("penalty_guidelines".data, [])]⟩ "player".data false none,
        p.2 ≤ 0) →
      ∃ top rest,
        route_ranked [] "zzz".data ⟨"d".data, [("penalty_guidelines".data, [])]⟩
          "player".data false none = top :: rest ∧
        (route [] "zzz".data ⟨"d".data, [("penalty_guidelines".data, [])]⟩
            "player".data false none).documents =
          ((route_ranked [] "zzz".data ⟨"d".data, [("penalty_guidelines".data, [])]⟩
            "player".data false none).filter (fun p => p.2 = top.2)).map Prod.fst) :=
  route_documents_nonempty [] "zzz".data
    ⟨"d".data, [("penalty_guidelines".data, [])]⟩ "player".data false none
    (by decide)

/-! ## Cross-reference expansion lemmas (C6) -/
theorem crossRefInner_spec (lookup : List (Str × TreeNode)) (document_name : Str)
    (maxS secLen : Nat) (refs : List Str) :
    ∀ (existing : List Str) (news : List RetrievedSection),
      ∃ added,
        crossRefInner lookup document_name maxS secLen refs existing news
          = (existing ++ added.map (fun rs => rs.node.id), news ++ added) ∧
        (added.map (fun rs => rs.node.id)).Nodup ∧
        ∀ rs ∈ added, rs.score = 1/2 ∧ rs.document_name = document_name ∧
          rs.node.id ∉ existing ∧
          ∃ ref ∈ refs, assocGet lookup ref = some rs.node := by
  induction refs with
  | nil =>
    intro existing news
    exact ⟨[], by simp [crossRefInner], by simp, by simp⟩
  | cons ref rest ih =>
    intro existing news
    unfold crossRefInner
    split
    case _ node heq =>
      split_ifs with h1 h2
      · obtain ⟨added, ha1, ha2, ha3⟩ := ih existing news
        refine ⟨added, ha1, ha2, fun rs hrs => ?_⟩
        obtain ⟨hs, hd, hni, r, hr, hget⟩ := ha3 rs hrs
        exact ⟨hs, hd, hni, r, List.mem_cons_of_mem _ hr, hget⟩
      · refine ⟨[mkCrossSection document_name node], by simp [mkCrossSection],
          by simp, fun rs hrs => ?_⟩
        rw [List.mem_singleton] at hrs
        subst hrs
        exact ⟨rfl, rfl, h1, ref, List.mem_cons_self _ _, heq⟩
      · obtain ⟨added, ha1, ha2, ha3⟩ :=
          ih (existing ++ [node.id]) (news ++ [mkCrossSection document_name node])
        refine ⟨mkCrossSection document_name node :: added, ?_, ?_, ?_⟩
        · rw [ha1]
          simp [mkCrossSection, List.append_assoc]
        · rw [List.map_cons, List.nodup_cons]
          refine ⟨fun hmem => ?_, ha2⟩
          obtain ⟨rs, hrs, hid⟩ := List.mem_map.mp hmem
          have := (ha3 rs hrs).2.2.1
          rw [hid] at this
          exact this (List.mem_append_right _ (List.mem_singleton.mpr rfl))
        · intro rs hrs
          rcases List.mem_cons.mp hrs with rfl | hrs
          · exact ⟨rfl, rfl, h1, ref, List.mem_cons_self _ _, heq⟩
          · obtain ⟨hs, hd, hni, r, hr, hget⟩ := ha3 rs hrs
            exact ⟨hs, hd, fun hmem => hni (List.mem_append_left _ hmem),
              r, List.mem_cons_of_mem _ hr, hget⟩
    case _ heq =>
      obtain ⟨added, ha1, ha2, ha3⟩ := ih existing news
      refine ⟨added, ha1, ha2, fun rs hrs => ?_⟩
      obtain ⟨hs, hd, hni, r, hr, hget⟩ := ha3 rs hrs
      exact ⟨hs, hd, hni, r, List.mem_cons_of_mem _ hr, hget⟩

theorem crossRefFold_spec (lookup : List (Str × TreeNode)) (document_name : Str)
    (maxS secLen : Nat) (secList : List RetrievedSection) :
    ∀ (existing : List Str) (news : List RetrievedSection),
      ∃ added,
        secList.foldl (fun (st : List Str × List RetrievedSection) rs =>
            crossRefInner lookup document_name maxS secLen
              (findCrossRefs rs.node.content) st.1 st.2) (existing, news)
          = (existing ++ added.map (fun rs => rs.node.id), news ++ added) ∧
        (added.map (fun rs => rs.node.id)).Nodup ∧
        ∀ rs ∈ added, rs.score = 1/2 ∧ rs.document_name = document_name ∧
          rs.node.id ∉ existing ∧
          ∃ src ∈ secList, ∃ ref ∈ findCrossRefs src.node.content,
            assocGet lookup ref = some rs.node := by
  induction secList with
  | nil =>
    intro existing news
    exact ⟨[], by simp, by simp, by simp⟩
  | cons s rest ih =>
    intro existing news
    rw [List.foldl_cons]
    obtain ⟨a1, h11, h12, h13⟩ := crossRefInner_spec lookup document_name maxS secLen
      (findCrossRefs s.node.content) existing news
    rw [h11]
    obtain ⟨a2, h21, h22, h23⟩ := ih (existing ++ a1.map (fun rs => rs.node.id))
      (news ++ a1)
    rw [h21]
    refine ⟨a1 ++ a2, ?_, ?_, ?_⟩
    · simp [List.append_assoc]
    · rw [List.map_append, List.nodup_append]
      refine ⟨h12, h22, fun x hx1 hx2 => ?_⟩
      obtain ⟨rs, hrs, hid⟩ := List.mem_map.mp hx2
      have := (h23 rs hrs).2.2.1
      rw [hid] at this
      exact this (List.mem_append_right _ hx1)
    · intro rs hrs
      rcases List.mem_append.mp hrs with hrs | hrs
      · obtain ⟨hs, hd, hni, r, hr, hget⟩ := h13 rs hrs
        exact ⟨hs, hd, hni, s, List.mem_cons_self _ _, r, hr, hget⟩
      · obtain ⟨hs, hd, hni, src, hsrc, r, hr, hget⟩ := h23 rs hrs
        exact ⟨hs, hd, fun hmem => hni (List.mem_append_left _ hmem),
          src, List.mem_cons_of_mem _ hsrc, r, hr, hget⟩

/-- C6 (amended): cross-reference expansion scans each result's content
for `(see)?(rule|section) <dotted-number>` references; every referenced
node present in the lookup and not already among the results is appended
(exactly once, after the original results) at fixed score 0.5; once the
combined count reaches `max_sections` the remaining references of the
current source section are skipped, but later source sections may each
still append further results, so the combined count can exceed
`max_sections`.  In particular the spec's example holds: a section whose
content says "See section 1.2 for details." with lookup `1.2 → node_b`
yields exactly one appended result for `node_b` at score 0.5, and no
duplicate when `node_b` is already among the results. -/
theorem resolve_cross_references_spec (sections : List RetrievedSection)
    (lookup : List (Str × TreeNode)) (document_name : Str) (maxS : Nat) :
    (∃ news,
      resolve_cross_references sections lookup document_name maxS
          = sections ++ news ∧
        (news.map (fun rs => rs.node.id)).Nodup ∧
        ∀ rs ∈ news, rs.score = 1/2 ∧ rs.document_name = document_name ∧
          rs.node.id ∉ sections.map (fun s => s.node.id) ∧
          ∃ src ∈ sections, ∃ ref ∈ findCrossRefs src.node.content,
            assocGet lookup ref = some rs.node) ∧
    resolve_cross_references [⟨exSecA, 1, "doc".data, []⟩]
        [("1.2".data, exNodeB)] "doc".data 10
      = [⟨exSecA, 1, "doc".data, []⟩, ⟨exNodeB, 1/2, "doc".data, []⟩] ∧
    resolve_cross_references
        [⟨exSecA, 1, "doc".data, []⟩, ⟨exNodeB, 1, "doc".data, []⟩]
        [("1.2".data, exNodeB)] "doc".data 10
      = [⟨exSecA, 1, "doc".data, []⟩, ⟨exNodeB, 1, "doc".data, []⟩] := by
  refine ⟨?_, by rfl, by rfl⟩
  obtain ⟨added, h1, h2, h3⟩ := crossRefFold_spec lookup document_name maxS
    sections.length sections (sections.map (fun rs => rs.node.id)) []
  refine ⟨added, ?_, h2, h3⟩
  unfold resolve_cross_references
  rw [h1]
  simp

/-- C6 fails as stated: with `max_sections = 2` and two already-present
results whose contents reference two distinct lookup entries, the
expansion appends one extra result per source section (the `break` in the
source exits only the inner reference loop), returning 4 results even
though the combined count had already reached `max_sections`. -/
theorem resolve_cross_references_exceeds_max :
    (resolve_cross_references
        [⟨exSecA, 1, "doc".data, []⟩, ⟨exSecD, 1, "doc".data, []⟩]
        [("1.2".data, exNodeB), ("1.3".data, exNodeC)] "doc".data 2).length = 4 := by
  rfl

/-! ## Oracle-failure lemmas (C5) -/
theorem keyword_select_children_subset (node : TreeNode) (query : Str) :
    ∀ c ∈ keyword_select_children node query, c ∈ node.children := by
  intro c hc
  unfold keyword_select_children at hc
  obtain ⟨p, hp, hpc⟩ := List.mem_map.mp hc
  have hp2 := List.mem_of_mem_take hp
  have hp3 := (sortDescBy_perm (fun p : Nat × TreeNode => p.1) _).mem_iff.mp hp2
  obtain ⟨child, hchild, heq⟩ := List.mem_filterMap.mp hp3
  split_ifs at heq
  rw [Option.some_inj] at heq
  rw [← heq] at hpc
  rw [← hpc]
  exact hchild

theorem keyword_select_children_ne_nil (node : TreeNode) (query : Str)
    (h : ∃ c ∈ node.children, 0 < childMatchCount query c) :
    keyword_select_children node query ≠ [] := by
  obtain ⟨c, hc, hcount⟩ := h
  unfold keyword_select_children
  intro hnil
  rw [List.map_eq_nil_iff, List.take_eq_nil_iff] at hnil
  rcases hnil with h3 | hsort
  · exact absurd h3 (by norm_num)
  · have hmem : (childMatchCount query c, c) ∈ node.children.filterMap
        (fun child => if 0 < childMatchCount query child then
          some (childMatchCount query child, child) else none) :=
      List.mem_filterMap.mpr ⟨c, hc, by rw [if_pos hcount]⟩
    have := (sortDescBy_perm (fun p : Nat × TreeNode => p.1) _).mem_iff.mpr hmem
    rw [hsort] at this
    cases this

theorem distributeSelected_leaves (document_name : Str) (sel : List TreeNode) :
    ∀ (fr : List TreeNode) (res : List RetrievedSection),
      (∀ c ∈ sel, c.children.isEmpty) →
      distributeSelected document_name (fr, res) sel
        = (fr, res ++ sel.map (fun c => ⟨c, 1, document_name, []⟩)) := by
  induction sel with
  | nil =>
    intro fr res _
    simp [distributeSelected]
  | cons c cs ih =>
    intro fr res h
    unfold distributeSelected
    rw [List.foldl_cons]
    rw [if_neg (by simpa using h c (List.mem_cons_self _ _))]
    have := ih fr (res ++ [⟨c, 1, document_name, []⟩])
      (fun x hx => h x (List.mem_cons_of_mem _ hx))
    unfold distributeSelected at this
    rw [this]
    simp

theorem searchLLMLoop_nil_frontier (oracle : Oracle) (document_name query : Str)
    (maxSections fuel : Nat) (visited : List Str)
    (results : List RetrievedSection) :
    searchLLMLoop oracle document_name query maxSections fuel [] visited results
      = .ok results := by
  cases fuel <;> rfl

/-- C5 (amended): when the ranking oracle fails with a connectivity or
service error, or returns a response that parses to no valid child index,
`search` recovers at that node via the deterministic keyword fallback; it
returns at least one result provided the fallback finds one — in
particular whenever the root's children are leaves and at least one of
them contains a query word (with no match anywhere the fallback selects
nothing and `search` returns zero results).  When the oracle fails with an
authentication error, `search` re-raises it to the caller and never
substitutes a fallback result. -/
theorem search_oracle_failure (oracle : Oracle) (query : Str)
    (index : DocumentIndex) (maxSections : Nat) :
    ((1 ≤ maxSections) →
     (∀ n q, oracle n q = .error .conn ∨
        ∃ r, oracle n q = .ok r ∧ parseSelection r n.children = []) →
     (∀ c ∈ index.root.children, c.children.isEmpty) →
     (∃ c ∈ index.root.children, 0 < childMatchCount query c) →
     ∃ rs, search oracle query index maxSections true = .ok rs ∧ 1 ≤ rs.length) ∧
    ((1 ≤ maxSections) →
     (index.root.children.isEmpty = false) →
     oracle index.root query = .error .auth →
     search oracle query index maxSections true = .error ()) := by
  constructor
  · intro hms hfail hleaves hmatch
    have hne : ¬ index.root.children.isEmpty := by
      obtain ⟨c, hc, _⟩ := hmatch
      intro hie
      rw [List.isEmpty_iff] at hie
      rw [hie] at hc
      cases hc
    have hsel : select_children oracle index.root query
        = .ok (keyword_select_children index.root query) := by
      unfold select_children
      rw [if_neg hne]
      rcases hfail index.root query with hconn | ⟨r, hok, hparse⟩
      · rw [hconn]
      · rw [hok]
        simp only [hparse, List.isEmpty_nil, if_pos]
    have hdist := distributeSelected_leaves index.document_name
      (keyword_select_children index.root query) [] []
      (fun c hc => hleaves c (keyword_select_children_subset index.root query c hc))
    obtain ⟨m, hm⟩ : ∃ m,
        (index.root.walk.length + 1) * (index.root.walk.length + 1) = m + 1 :=
      ⟨_, (Nat.succ_pred_eq_of_pos (Nat.mul_pos (Nat.succ_pos _)
        (Nat.succ_pos _))).symm⟩
    have hloop : searchLLMLoop oracle index.document_name query maxSections (m + 1)
        [index.root] [] []
        = .ok ((keyword_select_children index.root query).map
            (fun c => ⟨c, 1, index.document_name, []⟩)) := by
      unfold searchLLMLoop
      rw [if_neg (by simpa using by omega)]
      rw [if_neg (by simp)]
      rw [if_pos hne, hsel]
      simp only
      rw [hdist]
      exact searchLLMLoop_nil_frontier _ _ _ _ _ _ _
    have hkw : keyword_select_children index.root query ≠ [] :=
      keyword_select_children_ne_nil index.root query hmatch
    obtain ⟨added, hres, _, _⟩ := crossRefFold_spec (build_lookup index)
      index.document_name maxSections
      ((keyword_select_children index.root query).map
        (fun c => (⟨c, 1, index.document_name, []⟩ : RetrievedSection))).length
      ((keyword_select_children index.root query).map
        (fun c => (⟨c, 1, index.document_name, []⟩ : RetrievedSection)))
      (((keyword_select_children index.root query).map
        (fun c => (⟨c, 1, index.document_name, []⟩ : RetrievedSection))).map
        (fun rs => rs.node.id)) []
    refine ⟨(resolve_cross_references
        ((keyword_select_children index.root query).map
          (fun c => (⟨c, 1, index.document_name, []⟩ : RetrievedSection)))
        (build_lookup index) index.document_name maxSections).take maxSections,
      ?_, ?_⟩
    · unfold search search_with_llm
      rw [if_pos rfl, hm, hloop]
    · rw [List.length_take]
      have hlen1 : 1 ≤ ((keyword_select_children index.root query).map
          (fun c => (⟨c, 1, index.document_name, []⟩ : RetrievedSection))).length := by
        rw [List.length_map]
        exact List.length_pos.mpr hkw
      have : 1 ≤ (resolve_cross_references
          ((keyword_select_children index.root query).map
            (fun c => ⟨c, 1, index.document_name, []⟩))
          (build_lookup index) index.document_name maxSections).length := by
        unfold resolve_cross_references
        rw [hres]
        simp only [List.length_append]
        omega
      omega
  · intro hms hne hauth
    have hsel : select_children oracle index.root query = .error () := by
      unfold select_children
      rw [if_neg (by rw [hne]; exact Bool.false_ne_true), hauth]
    obtain ⟨m, hm⟩ : ∃ m,
        (index.root.walk.length + 1) * (index.root.walk.length + 1) = m + 1 :=
      ⟨_, (Nat.succ_pred_eq_of_pos (Nat.mul_pos (Nat.succ_pos _)
        (Nat.succ_pos _))).symm⟩
    have hloop : searchLLMLoop oracle index.document_name query maxSections (m + 1)
        [index.root] [] [] = .error () := by
      unfold searchLLMLoop
      rw [if_neg (by simpa using by omega)]
      rw [if_neg (by simp)]
      rw [if_pos (by rw [hne]; exact Bool.false_ne_true), hsel]
    show search oracle query index maxSections true = _
    unfold search search_with_llm
    rw [if_pos rfl, hm, hloop]

/-- C5 fails as stated: a connectivity failure at a node where the keyword
fallback finds no matching child yields zero results. -/
theorem search_conn_failure_zero_results :
    search (fun _ _ => .error .conn) "zzz".data exIndexNoMatch 5 true
      = .ok [] := by
  rfl

/-- Closed witness for C5 at a concrete tree, a matching query and both
failing oracles. -/
theorem search_oracle_failure_witness :
    (∃ rs, search (fun _ _ => .error .conn) "attack rules".data exIndex 5 true
        = .ok rs ∧ 1 ≤ rs.length) ∧
    search (fun _ _ => .error .auth) "attack rules".data exIndex 5 true
      = .error () :=
  ⟨(search_oracle_failure (fun _ _ => .error .conn) "attack rules".data
      exIndex 5).1 (by norm_num) (fun n q => Or.inl rfl) (by decide) (by decide),
   (search_oracle_failure (fun _ _ => .error .auth) "attack rules".data
      exIndex 5).2 (by norm_num) (by decide) rfl⟩

/-! ## Card-name detection lemmas (C4) -/
theorem strFindAux_some {needle : Str} :
    ∀ (hay : Str) (j i : Nat), strFindAux needle hay j = some i →
      ∃ k, i = j + k ∧ needle.isPrefixOf (hay.drop k) = true := by
  intro hay
  induction hay with
  | nil =>
    intro j i h
    unfold strFindAux at h
    split_ifs at h with hne
    rw [Option.some_inj] at h
    refine ⟨0, h.symm ▸ by omega, ?_⟩
    rw [List.isEmpty_iff] at hne
    rw [hne]
    rfl
  | cons c rest ih =>
    intro j i h
    unfold strFindAux at h
    split_ifs at h with hp
    · rw [Option.some_inj] at h
      exact ⟨0, h.symm, by simpa using hp⟩
    · obtain ⟨k, hk, hpre⟩ := ih (j + 1) i h
      exact ⟨k + 1, by omega, by simpa using hpre⟩

theorem strFind_take {needle hay : Str} {s : Nat} (h : strFind needle hay = some s) :
    (hay.drop s).take needle.length = needle := by
  obtain ⟨k, hk, hpre⟩ := strFindAux_some hay 0 s h
  have hk0 : s = k := by omega
  subst hk0
  exact (List.prefix_iff_eq_take.mp (List.isPrefixOf_iff_prefix.mp hpre)).symm

theorem detectStep_inv (q : Str) (cardIndex : List (Str × Str)) (name : Str)
    {st : List (Str × Str) × List (Nat × Nat)} (h : DetectInv q st) :
    DetectInv q (detectStep q cardIndex st name) := by
  obtain ⟨hpw, hbnd, hlen, hzip⟩ := h
  unfold detectStep
  split
  case _ heq => exact ⟨hpw, hbnd, hlen, hzip⟩
  case _ start heq =>
    split_ifs with h1 h2 h3
    · exact ⟨hpw, hbnd, hlen, hzip⟩
    · exact ⟨hpw, hbnd, hlen, hzip⟩
    · exact ⟨hpw, hbnd, hlen, hzip⟩
    · rw [not_and_or] at h1 h2
      push_neg at h3
      refine ⟨?_, ?_, ?_, ?_⟩
      · rw [List.pairwise_append]
        refine ⟨hpw, List.pairwise_singleton _ _, ?_⟩
        intro r hr r' hr'
        rw [List.mem_singleton] at hr'
        subst hr'
        rcases h3 r hr with hc | hc
        · exact Or.inr hc
        · exact Or.inl hc
      · intro r hr
        rcases List.mem_append.mp hr with hr | hr
        · exact hbnd r hr
        · rw [List.mem_singleton] at hr
          subst hr
          refine ⟨?_, ?_⟩
          · rcases h1 with h1 | h1
            · exact Or.inl (by omega)
            · exact Or.inr (Bool.not_eq_true _ ▸ h1)
          · rcases h2 with h2 | h2
            · exact Or.inl (by omega)
            · exact Or.inr (Bool.not_eq_true _ ▸ h2)
      · simp only [List.length_append, List.length_cons, List.length_nil]
        omega
      · rw [List.zip_append hlen]
        intro pr hpr
        rcases List.mem_append.mp hpr with hpr | hpr
        · exact hzip pr hpr
        · simp only [List.zip_cons_cons, List.zip_nil_left, List.zip_nil_right,
            List.mem_singleton] at hpr
          subst hpr
          exact ⟨rfl, strFind_take heq⟩

theorem detectScan_inv (cardIndex : List (Str × Str)) (query : Str) :
    DetectInv (lc query) (detectScan cardIndex query) := by
  unfold detectScan
  split_ifs
  · exact ⟨List.Pairwise.nil, by simp, rfl, by simp⟩
  · have hgen : ∀ (names : List Str) (st), DetectInv (lc query) st →
        DetectInv (lc query) (names.foldl (detectStep (lc query) cardIndex) st) := by
      intro names
      induction names with
      | nil => exact fun st h => h
      | cons n ns ih =>
        intro st h
        rw [List.foldl_cons]
        exact ih _ (detectStep_inv (lc query) cardIndex n h)
    exact hgen _ _ ⟨List.Pairwise.nil, by simp, rfl, by simp⟩

/-- C4: card-name detection considers names longest first, accepts a match
only when the characters immediately before and after the span (if
present) are not alphanumeric, never accepts a span overlapping a
previously accepted one, and each accepted span carries exactly the
matched name; with names `pikachu ex` and `ex` the query
`pikachu ex is strong` yields only `pikachu ex`, and with the single name
`ex` the query `hex maniac is powerful` yields no detected name. -/
theorem detect_card_names_sound (cardIndex : List (Str × Str)) (query : Str) :
    ((detectScan cardIndex query).2.Pairwise
      (fun r1 r2 => r1.2 ≤ r2.1 ∨ r2.2 ≤ r1.1)) ∧
    (∀ r ∈ (detectScan cardIndex query).2,
      (r.1 = 0 ∨ alnumAt (lc query) (r.1 - 1) = false) ∧
      ((lc query).length ≤ r.2 ∨ alnumAt (lc query) r.2 = false)) ∧
    (detectScan cardIndex query).1.length = (detectScan cardIndex query).2.length ∧
    (∀ pr ∈ (detectScan cardIndex query).1.zip (detectScan cardIndex query).2,
      pr.2.2 = pr.2.1 + pr.1.1.length ∧
      ((lc query).drop pr.2.1).take pr.1.1.length = pr.1.1) ∧
    detect_card_names
        [("pikachu ex".data, "card_db_pokemon".data),
         ("ex".data, "card_db_pokemon".data)] "pikachu ex is strong".data
      = [("pikachu ex".data, "card_db_pokemon".data)] ∧
    detect_card_names [("ex".data, "card_db_pokemon".data)]
        "hex maniac is powerful".data = [] := by
  obtain ⟨h1, h2, h3, h4⟩ := detectScan_inv cardIndex query
  exact ⟨h1, h2, h3, h4, by decide, by decide⟩

/-- C7 fails as stated: the claim's pattern has `\d+` ("a leading number
of any digit count"), but the code's `_SECTION_NUM_RE` bounds the leading
run to `\d{1,3}`; on the heading `# 1234 Rules` the claimed pattern
matches, yet `index_document` leaves `section_number` empty and keeps the
full text as the title. -/
theorem section_split_digit_bound_counterexample :
    ClaimHeadingSplits none "1234 Rules".data ∧
    sectionNumSplit "1234 Rules".data = none ∧
    ((index_document (fun s => s.length) "# 1234 Rules".data "doc".data
        .rulebook).root.walk.map (fun n => n.metadata.section_number))
      = [[], []] ∧
    ((index_document (fun s => s.length) "# 1234 Rules".data "doc".data
        .rulebook).root.walk.map (fun n => n.metadata.title))
      = ["doc".data, "1234 Rules".data] := by
  refine ⟨⟨"1234".data, ' ', "Rules".data, rfl,
    ⟨"1234".data, [], none, by decide, by decide, by simp, by simp, by simp⟩,
    Or.inr (by decide)⟩, rfl, rfl, rfl⟩

theorem dotDigitStart_cons_ne {c : Char} (rest : Str) (hc : ¬ c = '.') :
    dotDigitStart (c :: rest) = false := by
  unfold dotDigitStart
  split
  · rename_i heq
    rw [List.cons.injEq] at heq
    exact absurd heq.1 hc
  · rfl

theorem dotDigitItersF_cons_ne {c : Char} (fuel : Nat) (rest : Str)
    (hc : ¬ c = '.') :
    dotDigitItersF (fuel + 1) (c :: rest) = ([], c :: rest) := by
  unfold dotDigitItersF
  split
  · rename_i heq
    rw [List.cons.injEq] at heq
    exact absurd heq.1 hc
  · rfl

theorem dotDigitItersF_dot (fuel : Nat) (rest : Str) :
    dotDigitItersF (fuel + 1) ('.' :: rest)
      = if (rest.takeWhile pyIsDigit).isEmpty then ([], '.' :: rest)
        else (('.' :: rest.takeWhile pyIsDigit) ::
            (dotDigitItersF fuel (rest.dropWhile pyIsDigit)).1,
          (dotDigitItersF fuel (rest.dropWhile pyIsDigit)).2) := by
  show (if (rest.takeWhile pyIsDigit).isEmpty then ([], '.' :: rest)
    else
      match dotDigitItersF fuel (rest.dropWhile pyIsDigit) with
      | (more, r) => (('.' :: rest.takeWhile pyIsDigit) :: more, r)) = _
  split_ifs
  · rfl
  · cases dotDigitItersF fuel (rest.dropWhile pyIsDigit)
    rfl

theorem dotDigitItersF_spec :
    ∀ (fuel : Nat) (s : Str), s.length < fuel →
      s = (dotDigitItersF fuel s).1.flatten ++ (dotDigitItersF fuel s).2 ∧
      (∀ b ∈ (dotDigitItersF fuel s).1, isDigitsBlock b) ∧
      dotDigitStart (dotDigitItersF fuel s).2 = false := by
  intro fuel
  induction fuel with
  | zero =>
    intro s hs
    omega
  | succ fuel ih =>
    intro s hs
    cases s with
    | nil => exact ⟨rfl, by simp [dotDigitItersF], by simp [dotDigitItersF, dotDigitStart]⟩
    | cons c rest =>
      by_cases hc : c = '.'
      · subst hc
        rw [dotDigitItersF_dot]
        split_ifs with hds
        · refine ⟨rfl, by simp, ?_⟩
          cases rest with
          | nil => rfl
          | cons c2 r2 =>
            rw [List.takeWhile_cons] at hds
            show pyIsDigit c2 = false
            by_cases hc2 : pyIsDigit c2 = true
            · rw [if_pos hc2] at hds
              simp at hds
            · exact Bool.not_eq_true _ ▸ hc2
        · have hlt : (rest.dropWhile pyIsDigit).length < fuel := by
            have := List.IsSuffix.length_le (List.dropWhile_suffix
              (l := rest) (p := pyIsDigit))
            simp only [List.length_cons] at hs
            omega
          obtain ⟨h1, h2, h3⟩ := ih (rest.dropWhile pyIsDigit) hlt
          refine ⟨?_, ?_, h3⟩
          · show '.' :: rest
              = (('.' :: rest.takeWhile pyIsDigit) ::
                  (dotDigitItersF fuel (rest.dropWhile pyIsDigit)).1).flatten
                ++ (dotDigitItersF fuel (rest.dropWhile pyIsDigit)).2
            simp only [List.flatten_cons, List.cons_append, List.append_assoc]
            rw [← h1, List.takeWhile_append_dropWhile]
          · intro b hb
            rcases List.mem_cons.mp hb with rfl | hb
            · exact ⟨rest.takeWhile pyIsDigit, by simpa using hds,
                fun x hx => List.mem_takeWhile_imp hx, rfl⟩
            · exact h2 b hb
      · rw [dotDigitItersF_cons_ne fuel rest hc]
        exact ⟨rfl, by simp, dotDigitStart_cons_ne rest hc⟩

theorem dotDigitIters_spec (s : Str) :
    s = (dotDigitIters s).1.flatten ++ (dotDigitIters s).2 ∧
      (∀ b ∈ (dotDigitIters s).1, isDigitsBlock b) ∧
      dotDigitStart (dotDigitIters s).2 = false :=
  dotDigitItersF_spec (s.length + 1) s (by omega)

theorem dotDigitIters_ne_nil_of_start {s : Str} (h : dotDigitStart s = true) :
    (dotDigitIters s).1 ≠ [] := by
  cases s with
  | nil => exact absurd h (by decide)
  | cons c rest =>
    by_cases hc : c = '.'
    · subst hc
      cases rest with
      | nil => exact absurd h (by decide)
      | cons c2 r2 =>
        unfold dotDigitIters
        rw [dotDigitItersF_dot]
        have hne : ((c2 :: r2).takeWhile pyIsDigit).isEmpty = false := by
          rw [List.takeWhile_cons, if_pos (show pyIsDigit c2 = true from h)]
          rfl
        rw [if_neg (by rw [hne]; exact Bool.false_ne_true)]
        exact List.cons_ne_nil _ _
    · rw [dotDigitStart_cons_ne rest hc] at h
      cases h

theorem dotDigitIters_nil_eq {s : Str} (h : (dotDigitIters s).1 = []) :
    (dotDigitIters s).2 = s := by
  have := (dotDigitIters_spec s).1
  rw [h] at this
  simpa using this.symm

theorem pyIsSpace_not_digit {c : Char} (h : pyIsSpace c = true) :
    pyIsDigit c = false := by
  unfold pyIsSpace at h
  simp only [Bool.or_eq_true, decide_eq_true_eq] at h
  rcases h with ((((rfl | rfl) | rfl) | rfl) | rfl) | rfl <;> decide

theorem takeWhile_digits_append (d X : Str) (hd : ∀ c ∈ d, pyIsDigit c = true)
    (hX : ∀ c, X.head? = some c → pyIsDigit c = false) :
    (d ++ X).takeWhile pyIsDigit = d ∧ (d ++ X).dropWhile pyIsDigit = X := by
  induction d with
  | nil =>
    simp only [List.nil_append]
    cases X with
    | nil => exact ⟨rfl, rfl⟩
    | cons c rest =>
      have hc := hX c rfl
      rw [List.takeWhile_cons, List.dropWhile_cons,
        if_neg (by rw [hc]; exact Bool.false_ne_true),
        if_neg (by rw [hc]; exact Bool.false_ne_true)]
      exact ⟨rfl, rfl⟩
  | cons a d' ih =>
    have ha := hd a (List.mem_cons_self a d')
    obtain ⟨h1, h2⟩ := ih (fun c hc => hd c (List.mem_cons_of_mem _ hc))
    rw [List.cons_append, List.takeWhile_cons, List.dropWhile_cons,
      if_pos ha, if_pos ha, h1, h2]
    exact ⟨rfl, rfl⟩

theorem sectionSplitFinish_isSome (d : Str) (iters : List Str)
    (lopt : Option (Char × List Str)) (r : Str) :
    (sectionSplitFinish d iters lopt r).isSome = true ↔
      (headDotSpace r = true ∨ lopt.isSome = true ∨ iters ≠ []) := by
  cases r with
  | nil =>
    cases lopt with
    | none =>
      cases hj : iters.getLast? with
      | none =>
        rw [List.getLast?_eq_none_iff] at hj
        simp [sectionSplitFinish, headDotSpace, hj]
      | some last =>
        have hne : iters ≠ [] := by
          intro hnil
          rw [hnil] at hj
          cases hj
        simp [sectionSplitFinish, headDotSpace, hj, hne]
    | some p =>
      cases p with
      | mk c' jters =>
        cases hj : jters.getLast? <;> simp [sectionSplitFinish, headDotSpace, hj]
  | cons c rest =>
    by_cases hcs : (decide (c = '.') || pyIsSpace c) = true
    · simp [sectionSplitFinish, headDotSpace, hcs]
    · have hcs' : (decide (c = '.') || pyIsSpace c) = false := by
        rwa [Bool.not_eq_true] at hcs
      cases lopt with
      | none =>
        cases hj : iters.getLast? with
        | none =>
          rw [List.getLast?_eq_none_iff] at hj
          simp [sectionSplitFinish, headDotSpace, hcs', hj]
        | some last =>
          have hne : iters ≠ [] := by
            intro hnil
            rw [hnil] at hj
            cases hj
          simp [sectionSplitFinish, headDotSpace, hcs', hj, hne]
      | some p =>
        cases p with
        | mk c' jters =>
          cases hj : jters.getLast? <;>
            simp [sectionSplitFinish, headDotSpace, hcs', hj]

theorem getLast_block_decomp {l : List Str} {last : Str}
    (hall : ∀ b ∈ l, isDigitsBlock b) (hj : l.getLast? = some last) :
    ∃ (L : List Str) (ds : Str), l = L ++ [last] ∧ l.dropLast = L ∧
      ds ≠ [] ∧ (∀ c ∈ ds, pyIsDigit c = true) ∧ last = '.' :: ds ∧
      last.drop 1 = ds ∧ (∀ b ∈ L, isDigitsBlock b) ∧
      l.flatten = L.flatten ++ '.' :: ds := by
  obtain ⟨L, hL⟩ := List.getLast?_eq_some_iff.mp hj
  obtain ⟨ds, hne, hdig, hlast⟩ := hall last
    (by rw [hL]; exact List.mem_append_right _ (List.mem_singleton_self _))
  refine ⟨L, ds, hL, by rw [hL]; exact List.dropLast_concat, hne, hdig,
    hlast, by rw [hlast]; rfl,
    fun b hb => hall b (by rw [hL]; exact List.mem_append_left _ hb), ?_⟩
  rw [hL, List.flatten_append, hlast]
  simp

theorem bound3_of_le {d : Str} (hlen : d.length ≤ 3) :
    ∀ b ∈ (some 3 : Option Nat), d.length ≤ b := by
  intro b hb
  simp only [Option.mem_def, Option.some.injEq] at hb
  subst hb
  exact hlen

theorem sectionSplitFinish_sound (d : Str) (iters : List Str)
    (lopt : Option (Char × List Str)) (r num t2 : Str)
    (hdne : d ≠ []) (hdig : ∀ c ∈ d, pyIsDigit c = true) (hlen : d.length ≤ 3)
    (hiters : ∀ b ∈ iters, isDigitsBlock b)
    (hlopt : ∀ c jters, lopt = some (c, jters) →
      isSectionLetter c = true ∧ ∀ b ∈ jters, isDigitsBlock b)
    (h : sectionSplitFinish d iters lopt r = some (num, t2)) :
    SpecSectionNum (some 3) num ∧
    ∃ c' rest',
      d ++ iters.flatten ++
        (match lopt with
         | none => ([] : Str)
         | some (c, jters) => '.' :: c :: jters.flatten) ++ r
        = num ++ c' :: rest' ∧ (c' = '.' ∨ pyIsSpace c' = true) := by
  cases lopt with
  | none =>
    cases r with
    | nil =>
      cases hj : iters.getLast? with
      | none => simp [sectionSplitFinish, hj] at h
      | some last =>
        obtain ⟨L, ds, hL, hdrop, hdsne, hdsdig, hlast, hdrop1, hLblk, hflat⟩ :=
          getLast_block_decomp hiters hj
        simp only [sectionSplitFinish, hj, Option.some.injEq, Prod.mk.injEq] at h
        obtain ⟨hnum, ht2⟩ := h
        subst hnum
        refine ⟨⟨d, L, none, hdne, hdig, bound3_of_le hlen, hLblk,
          by rw [hdrop]⟩, '.', ds, ?_, Or.inl rfl⟩
        simp [hdrop, hflat]
    | cons c rest =>
      by_cases hcs : (decide (c = '.') || pyIsSpace c) = true
      · simp only [sectionSplitFinish, hcs, if_true, List.append_nil,
          Option.some.injEq, Prod.mk.injEq] at h
        obtain ⟨hnum, ht2⟩ := h
        subst hnum
        refine ⟨⟨d, iters, none, hdne, hdig, bound3_of_le hlen, hiters,
          by simp⟩, c, rest, by simp, ?_⟩
        rcases Bool.or_eq_true _ _ |>.mp hcs with hc | hc
        · exact Or.inl (of_decide_eq_true hc)
        · exact Or.inr hc
      · have hcs' : (decide (c = '.') || pyIsSpace c) = false := by
          rwa [Bool.not_eq_true] at hcs
        cases hj : iters.getLast? with
        | none => simp [sectionSplitFinish, hcs', hj] at h
        | some last =>
          obtain ⟨L, ds, hL, hdrop, hdsne, hdsdig, hlast, hdrop1, hLblk, hflat⟩ :=
            getLast_block_decomp hiters hj
          simp only [sectionSplitFinish, hcs', hj, Bool.false_eq_true,
            if_false, Option.some.injEq, Prod.mk.injEq] at h
          obtain ⟨hnum, ht2⟩ := h
          subst hnum
          refine ⟨⟨d, L, none, hdne, hdig, bound3_of_le hlen, hLblk,
            by rw [hdrop]⟩, '.', ds ++ c :: rest, ?_, Or.inl rfl⟩
          simp [hdrop, hflat]
  | some p =>
    cases p with
    | mk l jters =>
      obtain ⟨hletter, hjblk⟩ := hlopt l jters rfl
      cases r with
      | nil =>
        cases hj : jters.getLast? with
        | none =>
          rw [List.getLast?_eq_none_iff] at hj
          subst hj
          simp only [sectionSplitFinish, List.getLast?_nil, Option.some.injEq,
            Prod.mk.injEq] at h
          obtain ⟨hnum, ht2⟩ := h
          subst hnum
          refine ⟨⟨d, iters, none, hdne, hdig, bound3_of_le hlen, hiters,
            by simp⟩, '.', [l], by simp, Or.inl rfl⟩
        | some last =>
          obtain ⟨L, ds, hL, hdrop, hdsne, hdsdig, hlast, hdrop1, hLblk, hflat⟩ :=
            getLast_block_decomp hjblk hj
          simp only [sectionSplitFinish, hj, Option.some.injEq,
            Prod.mk.injEq] at h
          obtain ⟨hnum, ht2⟩ := h
          subst hnum
          refine ⟨⟨d, iters, some (l, L), hdne, hdig, bound3_of_le hlen,
            hiters, hletter, hLblk, by rw [hdrop]⟩, '.', ds, ?_,
            Or.inl rfl⟩
          simp [hdrop, hflat]
      | cons c rest =>
        by_cases hcs : (decide (c = '.') || pyIsSpace c) = true
        · simp only [sectionSplitFinish, hcs, if_true, Option.some.injEq,
            Prod.mk.injEq] at h
          obtain ⟨hnum, ht2⟩ := h
          subst hnum
          refine ⟨⟨d, iters, some (l, jters), hdne, hdig, bound3_of_le hlen,
            hiters, hletter, hjblk, by simp⟩, c, rest, by simp, ?_⟩
          rcases Bool.or_eq_true _ _ |>.mp hcs with hc | hc
          · exact Or.inl (of_decide_eq_true hc)
          · exact Or.inr hc
        · have hcs' : (decide (c = '.') || pyIsSpace c) = false := by
            rwa [Bool.not_eq_true] at hcs
          cases hj : jters.getLast? with
          | none =>
            rw [List.getLast?_eq_none_iff] at hj
            subst hj
            simp only [sectionSplitFinish, hcs', List.getLast?_nil,
              Bool.false_eq_true, if_false, Option.some.injEq,
              Prod.mk.injEq] at h
            obtain ⟨hnum, ht2⟩ := h
            subst hnum
            refine ⟨⟨d, iters, none, hdne, hdig, bound3_of_le hlen, hiters,
              by simp⟩, '.', l :: c :: rest, by simp, Or.inl rfl⟩
          | some last =>
            obtain ⟨L, ds, hL, hdrop, hdsne, hdsdig, hlast, hdrop1, hLblk,
              hflat⟩ := getLast_block_decomp hjblk hj
            simp only [sectionSplitFinish, hcs', hj, Bool.false_eq_true,
              if_false, Option.some.injEq, Prod.mk.injEq] at h
            obtain ⟨hnum, ht2⟩ := h
            subst hnum
            refine ⟨⟨d, iters, some (l, L), hdne, hdig, bound3_of_le hlen,
              hiters, hletter, hLblk, by rw [hdrop]⟩, '.',
              ds ++ c :: rest, ?_, Or.inl rfl⟩
            simp [hdrop, hflat]

theorem sectionNumSplit_isSome_iff (t : Str) :
    (sectionNumSplit t).isSome = true ↔
      (t.takeWhile pyIsDigit ≠ [] ∧ (t.takeWhile pyIsDigit).length ≤ 3 ∧
        (headDotSpace (dotDigitIters (t.dropWhile pyIsDigit)).2 = true ∨
         (dotDigitIters (t.dropWhile pyIsDigit)).1 ≠ [])) := by
  rcases hI : dotDigitIters (t.dropWhile pyIsDigit) with ⟨iters, r1⟩
  by_cases hd0 : ((t.takeWhile pyIsDigit).isEmpty
      || decide (3 < (t.takeWhile pyIsDigit).length)) = true
  · have hnone : sectionNumSplit t = none := by
      simp [sectionNumSplit, hd0]
    rw [hnone]
    simp only [Option.isSome_none, Bool.false_eq_true, false_iff, not_and]
    intro h1 h2
    rcases Bool.or_eq_true _ _ |>.mp hd0 with hx | hx
    · exact absurd (List.isEmpty_iff.mp hx) h1
    · exact absurd h2 (by intro hcon; exact absurd (of_decide_eq_true hx) (by omega))
  · have hd0' : ((t.takeWhile pyIsDigit).isEmpty
        || decide (3 < (t.takeWhile pyIsDigit).length)) = false := by
      rwa [Bool.not_eq_true] at hd0
    rw [Bool.or_eq_false_iff] at hd0'
    have hne : t.takeWhile pyIsDigit ≠ [] := by
      intro hnil
      rw [hnil] at hd0'
      exact absurd hd0'.1 (by decide)
    have hle : (t.takeWhile pyIsDigit).length ≤ 3 := by
      have := hd0'.2
      rw [decide_eq_false_iff_not] at this
      omega
    cases r1 with
    | nil =>
      have hred : sectionNumSplit t
          = sectionSplitFinish (t.takeWhile pyIsDigit) iters none [] := by
        simp only [sectionNumSplit, hI]
        rw [if_neg hd0]
      rw [hred, sectionSplitFinish_isSome]
      simp [headDotSpace, hne, hle, hI]
    | cons c1 rest1 =>
      cases rest1 with
      | nil =>
        have hred : sectionNumSplit t
            = sectionSplitFinish (t.takeWhile pyIsDigit) iters none [c1] := by
          simp only [sectionNumSplit, hI]
          rw [if_neg hd0]
        rw [hred, sectionSplitFinish_isSome]
        simp [headDotSpace, hne, hle, hI]
      | cons c2 r2 =>
        by_cases hc1 : c1 = '.'
        · subst hc1
          by_cases hlet : isSectionLetter c2 = true
          · rcases hJ : dotDigitIters r2 with ⟨jters, r3⟩
            have hred : sectionNumSplit t
                = sectionSplitFinish (t.takeWhile pyIsDigit) iters
                    (some (c2, jters)) r3 := by
              simp only [sectionNumSplit, hI, hJ]
              rw [if_neg hd0, if_pos hlet]
            rw [hred, sectionSplitFinish_isSome]
            simp [headDotSpace, hne, hle, hI]
          · have hred : sectionNumSplit t
                = sectionSplitFinish (t.takeWhile pyIsDigit) iters none
                    ('.' :: c2 :: r2) := by
              simp only [sectionNumSplit, hI]
              rw [if_neg hd0, if_neg hlet]
            rw [hred, sectionSplitFinish_isSome]
            simp [headDotSpace, hne, hle, hI]
        · have hred : sectionNumSplit t
              = sectionSplitFinish (t.takeWhile pyIsDigit) iters none
                  (c1 :: c2 :: r2) := by
            simp only [sectionNumSplit, hI]
            rw [if_neg hd0]
            split
            · rename_i heq
              rw [List.cons.injEq] at heq
              exact absurd heq.1 hc1
            · rfl
          rw [hred, sectionSplitFinish_isSome]
          simp [headDotSpace, hne, hle, hI]

theorem head_not_digit_of_blocks (blocks : List Str) (tail : Str)
    (hblk : ∀ b ∈ blocks, isDigitsBlock b)
    (htail : ∀ ch, tail.head? = some ch → pyIsDigit ch = false) :
    ∀ ch, (blocks.flatten ++ tail).head? = some ch → pyIsDigit ch = false := by
  intro ch hch
  cases blocks with
  | nil => exact htail ch (by simpa using hch)
  | cons b0 bs =>
    obtain ⟨ds, hdsne, hdsdig, hb0⟩ := hblk b0 (List.mem_cons_self _ _)
    rw [List.flatten_cons, hb0] at hch
    simp only [List.cons_append, List.head?_cons, Option.some.injEq] at hch
    subst hch
    decide

theorem headDotSpace_blocks (blocks : List Str) (tail : Str)
    (hblk : ∀ b ∈ blocks, isDigitsBlock b)
    (htail : headDotSpace tail = true) :
    headDotSpace (blocks.flatten ++ tail) = true := by
  cases blocks with
  | nil => simpa using htail
  | cons b0 bs =>
    obtain ⟨ds, hdsne, hdsdig, hb0⟩ := hblk b0 (List.mem_cons_self _ _)
    rw [List.flatten_cons, hb0]
    simp [headDotSpace]

/-- C7 (amended): the heading text is split into a section number and a
title exactly when it begins with the bounded numeric pattern
`\d{1,3}(\.\d+)*(\.[a-z](\.\d+)*)?` followed by `.` or whitespace — the
leading digit run is limited to three digits, not "any digit count" —
and when the split succeeds, the extracted number matches the bounded
pattern and is followed in the text by a `.` or a whitespace character. -/
theorem sectionNumSplit_matches_bounded_pattern (t : Str) :
    (∀ num t2, sectionNumSplit t = some (num, t2) →
      SpecSectionNum (some 3) num ∧
      ∃ c rest, t = num ++ c :: rest ∧ (c = '.' ∨ pyIsSpace c = true)) ∧
    ((sectionNumSplit t).isSome = true ↔ ClaimHeadingSplits (some 3) t) := by
  have hfwd : ∀ num t2, sectionNumSplit t = some (num, t2) →
      SpecSectionNum (some 3) num ∧
      ∃ c rest, t = num ++ c :: rest ∧ (c = '.' ∨ pyIsSpace c = true) := by
    intro num t2 h
    have hd0 : ((t.takeWhile pyIsDigit).isEmpty
        || decide (3 < (t.takeWhile pyIsDigit).length)) = false := by
      by_contra hcon
      rw [Bool.not_eq_false] at hcon
      rw [show sectionNumSplit t = none from by simp [sectionNumSplit, hcon]] at h
      cases h
    have hd0' : ¬ ((t.takeWhile pyIsDigit).isEmpty
        || decide (3 < (t.takeWhile pyIsDigit).length)) = true := by
      rw [hd0]
      exact Bool.false_ne_true
    have hparts := Bool.or_eq_false_iff.mp hd0
    have hne : t.takeWhile pyIsDigit ≠ [] := by
      intro hnil
      rw [hnil] at hparts
      exact absurd hparts.1 (by decide)
    have hle : (t.takeWhile pyIsDigit).length ≤ 3 := by
      have := hparts.2
      rw [decide_eq_false_iff_not] at this
      omega
    have hdig : ∀ c ∈ t.takeWhile pyIsDigit, pyIsDigit c = true :=
      fun c hc => List.mem_takeWhile_imp hc
    rcases hI : dotDigitIters (t.dropWhile pyIsDigit) with ⟨iters, r1⟩
    have hIspec := dotDigitIters_spec (t.dropWhile pyIsDigit)
    rw [hI] at hIspec
    obtain ⟨hflat0, hblk0, hstart0⟩ := hIspec
    have ht0 : t = t.takeWhile pyIsDigit ++ (iters.flatten ++ r1) := by
      rw [← hflat0]
      exact (List.takeWhile_append_dropWhile pyIsDigit t).symm
    cases r1 with
    | nil =>
      have hred : sectionNumSplit t
          = sectionSplitFinish (t.takeWhile pyIsDigit) iters none [] := by
        simp only [sectionNumSplit, hI]
        rw [if_neg hd0']
      rw [hred] at h
      obtain ⟨hspec, c', rest', hX, hsep⟩ :=
        sectionSplitFinish_sound _ _ none _ _ _ hne hdig hle hblk0
          (fun c j hcj => nomatch hcj) h
      refine ⟨hspec, c', rest', ?_, hsep⟩
      rw [← hX]
      conv_lhs => rw [ht0]
      simp
    | cons c1 rest1 =>
      cases rest1 with
      | nil =>
        have hred : sectionNumSplit t
            = sectionSplitFinish (t.takeWhile pyIsDigit) iters none [c1] := by
          simp only [sectionNumSplit, hI]
          rw [if_neg hd0']
        rw [hred] at h
        obtain ⟨hspec, c', rest', hX, hsep⟩ :=
          sectionSplitFinish_sound _ _ none _ _ _ hne hdig hle hblk0
            (fun c j hcj => nomatch hcj) h
        refine ⟨hspec, c', rest', ?_, hsep⟩
        rw [← hX]
        conv_lhs => rw [ht0]
        simp
      | cons c2 r2 =>
        by_cases hc1 : c1 = '.'
        · subst hc1
          by_cases hlet : isSectionLetter c2 = true
          · rcases hJ : dotDigitIters r2 with ⟨jters, r3⟩
            have hJspec := dotDigitIters_spec r2
            rw [hJ] at hJspec
            obtain ⟨hflatJ, hblkJ, hstartJ⟩ := hJspec
            have hred : sectionNumSplit t
                = sectionSplitFinish (t.takeWhile pyIsDigit) iters
                    (some (c2, jters)) r3 := by
              simp only [sectionNumSplit, hI, hJ]
              rw [if_neg hd0', if_pos hlet]
            rw [hred] at h
            obtain ⟨hspec, c', rest', hX, hsep⟩ :=
              sectionSplitFinish_sound _ _ (some (c2, jters)) _ _ _ hne hdig
                hle hblk0
                (fun c j hcj => by
                  injection hcj with h1
                  injection h1 with h2 h3
                  subst h2
                  subst h3
                  exact ⟨hlet, hblkJ⟩) h
            refine ⟨hspec, c', rest', ?_, hsep⟩
            rw [← hX]
            conv_lhs => rw [ht0, hflatJ]
            simp
          · have hred : sectionNumSplit t
                = sectionSplitFinish (t.takeWhile pyIsDigit) iters none
                    ('.' :: c2 :: r2) := by
              simp only [sectionNumSplit, hI]
              rw [if_neg hd0', if_neg hlet]
            rw [hred] at h
            obtain ⟨hspec, c', rest', hX, hsep⟩ :=
              sectionSplitFinish_sound _ _ none _ _ _ hne hdig hle hblk0
                (fun c j hcj => nomatch hcj) h
            refine ⟨hspec, c', rest', ?_, hsep⟩
            rw [← hX]
            conv_lhs => rw [ht0]
            simp
        · have hred : sectionNumSplit t
              = sectionSplitFinish (t.takeWhile pyIsDigit) iters none
                  (c1 :: c2 :: r2) := by
            simp only [sectionNumSplit, hI]
            rw [if_neg hd0']
            split
            · rename_i heq
              rw [List.cons.injEq] at heq
              exact absurd heq.1 hc1
            · rfl
          rw [hred] at h
          obtain ⟨hspec, c', rest', hX, hsep⟩ :=
            sectionSplitFinish_sound _ _ none _ _ _ hne hdig hle hblk0
              (fun c j hcj => nomatch hcj) h
          refine ⟨hspec, c', rest', ?_, hsep⟩
          rw [← hX]
          conv_lhs => rw [ht0]
          simp
  refine ⟨hfwd, ?_, ?_⟩
  · intro hs
    obtain ⟨⟨num, t2⟩, hsome⟩ := Option.isSome_iff_exists.mp hs
    obtain ⟨hspec, c, rest', hdec, hsep⟩ := hfwd num t2 hsome
    exact ⟨num, c, rest', hdec, hspec, hsep⟩
  · intro hclaim
    obtain ⟨numText, c, rest, htEq, ⟨d0, blocks, lopt0, hd0ne, hd0dig, hb,
      hblkall, hmatch⟩, hsep⟩ := hclaim
    rw [sectionNumSplit_isSome_iff]
    have hcne : ∀ ch, (c :: rest).head? = some ch → pyIsDigit ch = false := by
      intro ch hch
      simp only [List.head?_cons, Option.some.injEq] at hch
      subst hch
      rcases hsep with rfl | hspc
      · decide
      · exact pyIsSpace_not_digit hspc
    have hchead : headDotSpace (c :: rest) = true := by
      rcases hsep with rfl | hspc
      · rfl
      · show (decide (c = '.') || pyIsSpace c) = true
        rw [hspc, Bool.or_true]
    cases lopt0 with
    | none =>
      have hmatch' : numText = d0 ++ blocks.flatten := hmatch
      have htX : t = d0 ++ (blocks.flatten ++ c :: rest) := by
        rw [htEq, hmatch']
        simp
      obtain ⟨htake, hdropw⟩ := takeWhile_digits_append d0
        (blocks.flatten ++ c :: rest) hd0dig
        (head_not_digit_of_blocks blocks (c :: rest) hblkall hcne)
      rw [htX, htake, hdropw]
      refine ⟨hd0ne, hb 3 rfl, ?_⟩
      by_cases hit : (dotDigitIters (blocks.flatten ++ c :: rest)).1 = []
      · left
        rw [dotDigitIters_nil_eq hit]
        exact headDotSpace_blocks blocks (c :: rest) hblkall hchead
      · right
        exact hit
    | some p =>
      rcases p with ⟨l, jb⟩
      obtain ⟨hlet, hjbblk, hmatch'⟩ := hmatch
      have htX : t = d0
          ++ (blocks.flatten ++ '.' :: l :: (jb.flatten ++ c :: rest)) := by
        rw [htEq, hmatch']
        simp
      obtain ⟨htake, hdropw⟩ := takeWhile_digits_append d0
        (blocks.flatten ++ '.' :: l :: (jb.flatten ++ c :: rest)) hd0dig
        (head_not_digit_of_blocks blocks _ hblkall
          (by
            intro ch hch
            simp only [List.head?_cons, Option.some.injEq] at hch
            subst hch
            decide))
      rw [htX, htake, hdropw]
      refine ⟨hd0ne, hb 3 rfl, ?_⟩
      by_cases hit : (dotDigitIters
          (blocks.flatten ++ '.' :: l :: (jb.flatten ++ c :: rest))).1 = []
      · left
        rw [dotDigitIters_nil_eq hit]
        exact headDotSpace_blocks blocks _ hblkall rfl
      · right
        exact hit

/-- Concrete instantiation of the amended C7 theorem: on the heading text
`1.2 Title` the split succeeds with number `1.2`, which matches the
bounded pattern and is followed by a space. -/
theorem sectionNumSplit_matches_bounded_pattern_witness :
    SpecSectionNum (some 3) "1.2".data ∧
    ∃ c rest, "1.2 Title".data = "1.2".data ++ c :: rest ∧
      (c = '.' ∨ pyIsSpace c = true) :=
  (sectionNumSplit_matches_bounded_pattern "1.2 Title".data).1
    "1.2".data "Title".data rfl

end PokeProf
